import Mathlib

/-!
# dynamodbtools: the purge engine

A shallow embedding of `src/aws/aws.go`, `src/purge/purge.go`, `src/args.go` and
`src/core.go`, followed by theorems about chunking, scanning, purging and the
command-line entry point.

Conventions of the embedding:

* a Go function that may panic or loop is a Lean function into `Outcome`;
  loops take a `fuel` argument counting evaluations of the loop head;
* Go `int` is 64 bit and `int32` is 32 bit, both two's complement: sums are
  wrapped with `wrapInt64` and `wrapInt32`;
* a Go `error` is `Option String` (`none` is `nil`), a Go pointer `*T` is
  `Option T` (`none` is `nil`), a Go `map[string]T` is an association list
  read with `mapGet` and written with `mapSet`;
* the goroutines that `Table.Purge` spawns and waits for are recorded one
  event list per goroutine, in spawn order, with no order between the lists;
* calls to the provider, writes to stdout and writes to stderr are recorded
  as `Event`s.
-/

namespace DynamoDbTools

/-! ## Go runtime -/

/-- How a call of a Go function ends: it returns, it panics, it ends the
process with `os.Exit`, or a loop head was evaluated more often than the fuel
allows. -/
inductive Outcome (α : Type) where
  | returned (a : α)
  | panicked (msg : String)
  | exited (code : Int)
  | outOfFuel
  deriving DecidableEq, Repr

/-- Two's complement wrap-around of Go `int` (64 bit). -/
def wrapInt64 (x : Int) : Int := (x + 2 ^ 63) % 2 ^ 64 - 2 ^ 63

/-- Two's complement wrap-around of Go `int32`. -/
def wrapInt32 (x : Int) : Int := (x + 2 ^ 31) % 2 ^ 32 - 2 ^ 31

/-- The slice expression `s[lo:hi]`: Go panics unless `0 ≤ lo ≤ hi ≤ cap(s)`.
The only caller clips `hi` to `len(s)` first, so the upper bound is checked
against the length. -/
def sliceExpr {α : Type} (s : List α) (lo hi : Int) : Option (List α) :=
  if 0 ≤ lo ∧ lo ≤ hi ∧ hi ≤ (s.length : Int) then
    some ((s.drop lo.toNat).take (hi.toNat - lo.toNat))
  else none

/-! ## Data model (`aws.go`) -/

/-- The struct `KeyPair` of aws.go: `PartitionKey string`, `SortKey *string`. -/
structure KeyPair where
  PartitionKey : String
  SortKey : Option String
  deriving DecidableEq, Repr

/-! ## chunkRecords -/

/-- The `for i := 0; i < len(records); i += chunkSize` loop of `chunkRecords`,
from the loop head with the current `i` and `chunkedRecords`. -/
def chunkLoop (records : List KeyPair) (chunkSize : Int) :
    Nat → Int → List (List KeyPair) → Outcome (List (List KeyPair))
  | 0, _, _ => Outcome.outOfFuel
  | fuel + 1, i, chunkedRecords =>
    if i < (records.length : Int) then
      let chunkEnd := wrapInt64 (i + chunkSize)
      let chunkEnd := if chunkEnd > (records.length : Int) then (records.length : Int) else chunkEnd
      match sliceExpr records i chunkEnd with
      | none => Outcome.panicked "slice bounds out of range"
      | some batch =>
        chunkLoop records chunkSize fuel (wrapInt64 (i + chunkSize)) (chunkedRecords ++ [batch])
    else Outcome.returned chunkedRecords

/-- The function `chunkRecords(records, chunkSize)` of aws.go. -/
def chunkRecords (fuel : Nat) (records : List KeyPair) (chunkSize : Int) :
    Outcome (List (List KeyPair)) :=
  chunkLoop records chunkSize fuel 0 []

/-! ## Go maps -/

/-- The Go map `map[string]α`, as an association list with distinct keys. -/
abbrev GoMap (α : Type) := List (String × α)

/-- The map read `m[k]`; `none` when the key is absent. -/
def mapGet {α : Type} (m : GoMap α) (k : String) : Option α :=
  match m with
  | [] => none
  | (k1, v) :: rest => if k1 = k then some v else mapGet rest k

/-- The map write `m[k] = v`: replaces the entry of `k` or adds one. -/
def mapSet {α : Type} (m : GoMap α) (k : String) (v : α) : GoMap α :=
  match m with
  | [] => [(k, v)]
  | (k1, v1) :: rest => if k1 = k then (k, v) :: rest else (k1, v1) :: mapSet rest k v

/-- The keys of a Go map. -/
def mapKeys {α : Type} (m : GoMap α) : List String := m.map Prod.fst

/-! ## The provider SDK (`aws-sdk-go-v2`), as far as aws.go uses it -/

/-- The SDK type `types.AttributeValue`: the scalar members a key attribute
can have (`S`, `N`, `B`) and the members `BOOL` and `NULL`. A nil interface
value is `none : Option AttributeValue`. -/
inductive AttributeValue where
  | S (Value : String)
  | N (Value : String)
  | B (Value : List Nat)
  | BOOL (Value : Bool)
  | NULL (Value : Bool)
  deriving DecidableEq, Repr

/-- A record or a key: `map[string]types.AttributeValue`. -/
abbrev Item := GoMap AttributeValue

/-- The SDK type `dynamodb.ScanInput`, fields set by aws.go. -/
structure ScanInput where
  TableName : String
  ExclusiveStartKey : Option Item
  deriving DecidableEq, Repr

/-- The SDK type `dynamodb.ScanOutput`, fields read by aws.go. `Count` is an
`int32`. -/
structure ScanOutput where
  Items : List Item
  Count : Int
  LastEvaluatedKey : Option Item
  deriving DecidableEq, Repr

/-- The SDK constant `types.KeyTypeHash`. -/
def KeyTypeHash : String := "HASH"

/-- The SDK constant `types.KeyTypeRange`. -/
def KeyTypeRange : String := "RANGE"

/-- The SDK type `types.KeySchemaElement`; `KeyType` is a string type. -/
structure KeySchemaElement where
  AttributeName : Option String
  KeyType : String
  deriving DecidableEq, Repr

/-- The SDK type `types.TableDescription`, field read by aws.go. -/
structure TableDescription where
  KeySchema : List KeySchemaElement
  deriving DecidableEq, Repr

/-- The SDK type `dynamodb.DescribeTableInput`. -/
structure DescribeTableInput where
  TableName : String
  deriving DecidableEq, Repr

/-- The SDK type `dynamodb.DescribeTableOutput`; `Table` is a pointer. -/
structure DescribeTableOutput where
  Table : Option TableDescription
  deriving DecidableEq, Repr

/-- The SDK type `types.DeleteRequest`; a nil `Key` map is `none`. -/
structure DeleteRequest where
  Key : Option Item
  deriving DecidableEq, Repr

/-- The SDK type `types.WriteRequest`, field set by aws.go. -/
structure WriteRequest where
  DeleteRequest : Option DeleteRequest
  deriving DecidableEq, Repr

/-- The SDK type `dynamodb.BatchWriteItemInput`. -/
structure BatchWriteItemInput where
  RequestItems : GoMap (List WriteRequest)
  deriving DecidableEq, Repr

/-- What the program does to the outside world. -/
inductive Event where
  | describeTable (input : DescribeTableInput)
  | scan (input : ScanInput)
  | batchWriteItem (input : BatchWriteItemInput)
  | stdout (text : String)
  | stderr (text : String)
  deriving DecidableEq, Repr

/-- The package variable `client` of aws.go: a provider with a state of type
`σ`. `DescribeTable` and `Scan` are called by one goroutine, in sequence, and
thread the state. `BatchWriteItem k` is the answer to the request of the
`deleteChunk` goroutine spawned for batch number `k` (`none` is success); the
goroutines run concurrently, so their requests are not ordered and the answer
may be any function of the goroutine and of the request. -/
structure Provider (σ : Type) where
  DescribeTable : σ → DescribeTableInput → Except String DescribeTableOutput × σ
  Scan : σ → ScanInput → Except String ScanOutput × σ
  BatchWriteItem : Nat → BatchWriteItemInput → Option String

/-- The two calls of `attributevalue.Marshal` and the two calls of
`attributevalue.Unmarshal` that aws.go makes. `UnmarshalString av cur` and
`UnmarshalStringPtr av cur` give the new value of a target that held `cur`,
and the error. -/
structure Codec where
  MarshalString : String → Except String AttributeValue
  MarshalStringPtr : Option String → Except String AttributeValue
  UnmarshalString : Option AttributeValue → String → String × Option String
  UnmarshalStringPtr : Option AttributeValue → Option String → Option String × Option String

/-- The behaviour of the SDK for those four calls. A Go string encodes to `S`
and a nil `*string` to `NULL`, without error. `S` and `N` decode into a
string target, a missing or `NULL` attribute sets the target to its zero
value, and every other member is a type error that leaves a string target as
it was and a `*string` target pointing to its old or to a fresh empty string. -/
def sdkCodec : Codec where
  MarshalString := fun s => Except.ok (AttributeValue.S s)
  MarshalStringPtr := fun p =>
    match p with
    | none => Except.ok (AttributeValue.NULL true)
    | some s => Except.ok (AttributeValue.S s)
  UnmarshalString := fun av cur =>
    match av with
    | none => ("", none)
    | some (AttributeValue.NULL _) => ("", none)
    | some (AttributeValue.S v) => (v, none)
    | some (AttributeValue.N v) => (v, none)
    | some (AttributeValue.B _) => (cur, some "unmarshal failed, cannot unmarshal binary into Go value type string")
    | some (AttributeValue.BOOL _) => (cur, some "unmarshal failed, cannot unmarshal bool into Go value type string")
  UnmarshalStringPtr := fun av cur =>
    match av with
    | none => (none, none)
    | some (AttributeValue.NULL _) => (none, none)
    | some (AttributeValue.S v) => (some v, none)
    | some (AttributeValue.N v) => (some v, none)
    | some (AttributeValue.B _) =>
      (some (cur.getD ""), some "unmarshal failed, cannot unmarshal binary into Go value type string")
    | some (AttributeValue.BOOL _) =>
      (some (cur.getD ""), some "unmarshal failed, cannot unmarshal bool into Go value type string")

/-- What a call that talks to the provider leaves behind: the events of the
calling goroutine in order, the events of every goroutine it spawned and
waited for (one list per goroutine, in spawn order), the state of the
provider, and how the call ended. -/
structure Exec (σ α : Type) where
  events : List Event
  tasks : List (List Event)
  state : σ
  outcome : Outcome α

/-! ## aws.go -/

/-- The struct `Table` of aws.go: `TableName string`, `PrimaryKey *KeyPair`. -/
structure Table where
  TableName : String
  PrimaryKey : Option KeyPair
  deriving DecidableEq, Repr

/-- The zero value `KeyPair{}`. -/
def KeyPair.zero : KeyPair := { PartitionKey := "", SortKey := none }

/-- The method `keyPair.toDynamoDbApiKey(primaryKey)` of aws.go; it returns
`(map, error)`, with a nil map (`none`) beside an error. -/
def KeyPair.toDynamoDbApiKey (c : Codec) (keyPair primaryKey : KeyPair) :
    Option Item × Option String :=
  match c.MarshalString keyPair.PartitionKey with
  | Except.error err => (none, some err)
  | Except.ok marshalledPartitionKey =>
    let keyPairMap : Item := mapSet [] primaryKey.PartitionKey marshalledPartitionKey
    match primaryKey.SortKey with
    | none => (some keyPairMap, none)
    | some sortName =>
      match c.MarshalStringPtr keyPair.SortKey with
      | Except.error err => (none, some err)
      | Except.ok marshalledSortKey => (some (mapSet keyPairMap sortName marshalledSortKey), none)

/-- The function `appendChunkToKeyArray(primaryKey, keys, chunk)` of aws.go.
The errors of `Unmarshal` are dropped, as in the source. -/
def appendChunkToKeyArray (c : Codec) (primaryKey : KeyPair) (keys : List KeyPair)
    (chunk : List Item) : List KeyPair :=
  match primaryKey.SortKey with
  | none =>
    chunk.foldl (fun appendedKeys record =>
      let keyPair := KeyPair.zero
      let keyPair := { keyPair with
        PartitionKey :=
          (c.UnmarshalString (mapGet record primaryKey.PartitionKey) keyPair.PartitionKey).1 }
      appendedKeys ++ [keyPair]) keys
  | some sortName =>
    chunk.foldl (fun appendedKeys record =>
      let keyPair := KeyPair.zero
      let keyPair := { keyPair with
        PartitionKey :=
          (c.UnmarshalString (mapGet record primaryKey.PartitionKey) keyPair.PartitionKey).1 }
      let keyPair := { keyPair with
        SortKey := (c.UnmarshalStringPtr (mapGet record sortName) keyPair.SortKey).1 }
      appendedKeys ++ [keyPair]) keys

/-- The `for` loop of `Table.Scan`, from the loop head. -/
def scanLoop {σ : Type} (c : Codec) (p : Provider σ) (table : Table) :
    Nat → σ → List Event → Option Item → Int → List KeyPair →
      Exec σ (Option (List KeyPair) × Int × Option String)
  | 0, s, events, _, _, _ => ⟨events, [], s, Outcome.outOfFuel⟩
  | fuel + 1, s, events, lastEvaluatedKey, scannedItemCount, scannedItemKeys =>
    match lastEvaluatedKey with
    | none => ⟨events, [], s, Outcome.returned (some scannedItemKeys, scannedItemCount, none)⟩
    | some startKey =>
      let input : ScanInput := { TableName := table.TableName, ExclusiveStartKey := some startKey }
      match p.Scan s input with
      | (Except.error err, s1) =>
        ⟨events ++ [Event.scan input], [], s1, Outcome.returned (none, 0, some err)⟩
      | (Except.ok response, s1) =>
        match table.PrimaryKey with
        | none =>
          ⟨events ++ [Event.scan input], [], s1, Outcome.panicked "nil pointer dereference"⟩
        | some primaryKey =>
          scanLoop c p table fuel s1 (events ++ [Event.scan input]) response.LastEvaluatedKey
            (wrapInt32 (scannedItemCount + response.Count))
            (appendChunkToKeyArray c primaryKey scannedItemKeys response.Items)

/-- The method `table.Scan()` of aws.go; it returns `(keys, count, error)`, with
a nil slice (`none`) beside an error. -/
def Table.Scan {σ : Type} (c : Codec) (p : Provider σ) (fuel : Nat) (s : σ) (table : Table) :
    Exec σ (Option (List KeyPair) × Int × Option String) :=
  let input : ScanInput := { TableName := table.TableName, ExclusiveStartKey := none }
  match p.Scan s input with
  | (Except.error err, s1) => ⟨[Event.scan input], [], s1, Outcome.returned (none, 0, some err)⟩
  | (Except.ok response, s1) =>
    match table.PrimaryKey with
    | none => ⟨[Event.scan input], [], s1, Outcome.panicked "nil pointer dereference"⟩
    | some primaryKey =>
      scanLoop c p table fuel s1 [Event.scan input] response.LastEvaluatedKey response.Count
        (appendChunkToKeyArray c primaryKey [] response.Items)

/-- The loop over `info.Table.KeySchema` in `AssignKeySchema`; `none` is the
panic of `*key.AttributeName` on a nil name. -/
def keySchemaLoop : List KeySchemaElement → KeyPair → Option KeyPair
  | [], keys => some keys
  | key :: rest, keys =>
    if key.KeyType = KeyTypeHash then
      match key.AttributeName with
      | none => none
      | some name => keySchemaLoop rest { keys with PartitionKey := name }
    else if key.KeyType = KeyTypeRange then
      keySchemaLoop rest { keys with SortKey := key.AttributeName }
    else keySchemaLoop rest keys

/-- The method `table.AssignKeySchema()` of aws.go; it returns the receiver as
the call leaves it, and the error. -/
def Table.AssignKeySchema {σ : Type} (p : Provider σ) (s : σ) (table : Table) :
    Exec σ (Table × Option String) :=
  let input : DescribeTableInput := { TableName := table.TableName }
  match p.DescribeTable s input with
  | (Except.error err, s1) =>
    ⟨[Event.describeTable input], [], s1, Outcome.returned (table, some err)⟩
  | (Except.ok info, s1) =>
    match info.Table with
    | none => ⟨[Event.describeTable input], [], s1, Outcome.panicked "nil pointer dereference"⟩
    | some description =>
      match keySchemaLoop description.KeySchema KeyPair.zero with
      | none => ⟨[Event.describeTable input], [], s1, Outcome.panicked "nil pointer dereference"⟩
      | some keys =>
        ⟨[Event.describeTable input], [], s1,
          Outcome.returned ({ table with PrimaryKey := some keys }, none)⟩

/-- The loop of `deleteChunk` that fills `writeRequests`; the second component
collects what the loop prints to stderr. -/
def writeRequestLoop (c : Codec) (primaryKey : KeyPair) (chunk : List KeyPair) :
    List WriteRequest × List Event :=
  chunk.foldl (fun (acc : List WriteRequest × List Event) record =>
    let result := record.toDynamoDbApiKey c primaryKey
    let printed : List Event :=
      match result.2 with
      | some err => acc.2 ++ [Event.stderr (err ++ "\n")]
      | none => acc.2
    (acc.1 ++ [({ DeleteRequest := some { Key := result.1 } } : WriteRequest)], printed)) ([], [])

/-- The function `deleteChunk(wg, tableName, primaryKey, chunk)` of aws.go, run
as one goroutine: the events of the goroutine. `answer` is what the provider
answers to the `BatchWriteItem` call. -/
def deleteChunk (c : Codec) (answer : BatchWriteItemInput → Option String) (tableName : String)
    (primaryKey : KeyPair) (chunk : List KeyPair) : List Event :=
  let filled := writeRequestLoop c primaryKey chunk
  let input : BatchWriteItemInput := { RequestItems := mapSet [] tableName filled.1 }
  match answer input with
  | some err => filled.2 ++ [Event.batchWriteItem input] ++ [Event.stderr (err ++ "\n")]
  | none => filled.2 ++ [Event.batchWriteItem input]

/-- The goroutines that `Table.Purge` spawns for the batches numbered from `k`. -/
def spawnDeletes {σ : Type} (c : Codec) (p : Provider σ) (tableName : String)
    (primaryKey : KeyPair) : Nat → List (List KeyPair) → List (List Event)
  | _, [] => []
  | k, chunkedRecord :: rest =>
    deleteChunk c (p.BatchWriteItem k) tableName primaryKey chunkedRecord
      :: spawnDeletes c p tableName primaryKey (k + 1) rest

/-- The method `table.Purge()` of aws.go; it returns the receiver as the call
leaves it, the count and the error. -/
def Table.Purge {σ : Type} (c : Codec) (p : Provider σ) (fuel : Nat) (s : σ) (table : Table) :
    Exec σ (Table × Int × Option String) :=
  let resolved := table.AssignKeySchema p s
  match resolved.outcome with
  | Outcome.panicked msg => ⟨resolved.events, [], resolved.state, Outcome.panicked msg⟩
  | Outcome.exited code => ⟨resolved.events, [], resolved.state, Outcome.exited code⟩
  | Outcome.outOfFuel => ⟨resolved.events, [], resolved.state, Outcome.outOfFuel⟩
  | Outcome.returned (table1, some err) =>
    ⟨resolved.events, [], resolved.state, Outcome.returned (table1, 0, some err)⟩
  | Outcome.returned (table1, none) =>
    let scanned := table1.Scan c p fuel resolved.state
    match scanned.outcome with
    | Outcome.panicked msg =>
      ⟨resolved.events ++ scanned.events, [], scanned.state, Outcome.panicked msg⟩
    | Outcome.exited code =>
      ⟨resolved.events ++ scanned.events, [], scanned.state, Outcome.exited code⟩
    | Outcome.outOfFuel =>
      ⟨resolved.events ++ scanned.events, [], scanned.state, Outcome.outOfFuel⟩
    | Outcome.returned (_, _, some err) =>
      ⟨resolved.events ++ scanned.events, [], scanned.state, Outcome.returned (table1, 0, some err)⟩
    | Outcome.returned (itemKeys, itemCount, none) =>
      match chunkRecords fuel (itemKeys.getD []) 25 with
      | Outcome.panicked msg =>
        ⟨resolved.events ++ scanned.events, [], scanned.state, Outcome.panicked msg⟩
      | Outcome.exited code =>
        ⟨resolved.events ++ scanned.events, [], scanned.state, Outcome.exited code⟩
      | Outcome.outOfFuel =>
        ⟨resolved.events ++ scanned.events, [], scanned.state, Outcome.outOfFuel⟩
      | Outcome.returned chunkedRecords =>
        match table1.PrimaryKey with
        | none =>
          match chunkedRecords with
          | [] =>
            ⟨resolved.events ++ scanned.events, [], scanned.state,
              Outcome.returned (table1, itemCount, none)⟩
          | _ :: _ =>
            ⟨resolved.events ++ scanned.events, [], scanned.state,
              Outcome.panicked "nil pointer dereference"⟩
        | some primaryKey =>
          ⟨resolved.events ++ scanned.events,
            spawnDeletes c p table1.TableName primaryKey 0 chunkedRecords,
            scanned.state, Outcome.returned (table1, itemCount, none)⟩


/-! ## purge.go -/

/-- A value of type `interface{}` in a flag map: a pointer to an `int`, a
`string` or a `bool` (`none` is the nil pointer, `some v` a pointer to a
variable that holds `v`), or a plain `int`, `string` or `bool`. -/
inductive Dynamic where
  | ptrInt (target : Option Int)
  | ptrString (target : Option String)
  | ptrBool (target : Option Bool)
  | int (v : Int)
  | string (v : String)
  | bool (v : Bool)
  deriving DecidableEq, Repr

/-- The constant `errMissingTableName` of purge.go. -/
def purge.errMissingTableName : String := "Missing parameter \"table-name\""

/-- The function `getTableName(flagVals)` of purge.go; it returns
`(name, error)`. The type assertion `.(*string)` also succeeds on a nil
`*string`, whose dereference panics. -/
def purge.getTableName (flagVals : GoMap Dynamic) : Outcome (String × Option String) :=
  let assigned : Outcome String :=
    match mapGet flagVals "table-name" with
    | some (Dynamic.ptrString (some val)) => Outcome.returned val
    | some (Dynamic.ptrString none) => Outcome.panicked "nil pointer dereference"
    | _ => Outcome.returned ""
  match assigned with
  | Outcome.returned tableName =>
    if tableName = "" then Outcome.returned ("", some purge.errMissingTableName)
    else Outcome.returned (tableName, none)
  | Outcome.panicked msg => Outcome.panicked msg
  | Outcome.exited code => Outcome.exited code
  | Outcome.outOfFuel => Outcome.outOfFuel

/-- The text that `fmt.Printf("Deleted %d items\n", deleteCount)` writes. -/
def purge.countLine (deleteCount : Int) : String :=
  "Deleted " ++ toString deleteCount ++ " items\n"

/-- The function `Purge(flagVals)` of purge.go; it returns the error. -/
def purge.Purge {σ : Type} (c : Codec) (p : Provider σ) (fuel : Nat) (s : σ)
    (flagVals : GoMap Dynamic) : Exec σ (Option String) :=
  match purge.getTableName flagVals with
  | Outcome.panicked msg => ⟨[], [], s, Outcome.panicked msg⟩
  | Outcome.exited code => ⟨[], [], s, Outcome.exited code⟩
  | Outcome.outOfFuel => ⟨[], [], s, Outcome.outOfFuel⟩
  | Outcome.returned (_, some err) => ⟨[], [], s, Outcome.returned (some err)⟩
  | Outcome.returned (tableName, none) =>
    let table : Table := { TableName := tableName, PrimaryKey := none }
    let purged := table.Purge c p fuel s
    match purged.outcome with
    | Outcome.panicked msg => ⟨purged.events, purged.tasks, purged.state, Outcome.panicked msg⟩
    | Outcome.exited code => ⟨purged.events, purged.tasks, purged.state, Outcome.exited code⟩
    | Outcome.outOfFuel => ⟨purged.events, purged.tasks, purged.state, Outcome.outOfFuel⟩
    | Outcome.returned (_, deleteCount, err) =>
      ⟨purged.events ++ [Event.stdout (purge.countLine deleteCount)], purged.tasks, purged.state,
        Outcome.returned err⟩

/-! ## args.go and core.go -/

/-- The constant `flagInt` of args.go. -/
def flagInt : Int := 0

/-- The constant `flagString` of args.go. -/
def flagString : Int := 1

/-- The constant `flagBool` of args.go. -/
def flagBool : Int := 2

/-- The struct `Flag` of args.go. -/
structure Flag where
  flagType : Int
  short : String
  long : String
  description : String
  deriving DecidableEq, Repr

/-- The library type `flag.FlagSet`: its name and the names of the flags
defined on it. -/
structure FlagSet where
  name : String
  formal : List String
  deriving DecidableEq, Repr

/-- Defining a flag on a flag set, as `flagset.Int`, `flagset.String`,
`flagset.Bool` and their `Var` forms do: the library panics when the name is
already defined. -/
def FlagSet.define (flagset : FlagSet) (name : String) : Outcome FlagSet :=
  if name ∈ flagset.formal then
    if flagset.name = "" then Outcome.panicked ("flag redefined: " ++ name)
    else Outcome.panicked (flagset.name ++ " flag redefined: " ++ name)
  else Outcome.returned { flagset with formal := flagset.formal ++ [name] }

/-- The struct `Subcommand` of args.go. The entry function runs against the
provider, so it takes the state of the provider with the flag map. -/
structure Subcommand (σ : Type) where
  name : String
  flags : List Flag
  flagValues : GoMap Dynamic
  flagset : Option FlagSet
  entryFunc : σ → GoMap Dynamic → Exec σ (Option String)

/-- The body of the inner loop of `registerSubcommands` for one flag: the
`switch flag.flagType`. The short name is defined only when the type
assertion on the stored value succeeds. -/
def registerFlag (flagset : FlagSet) (flagValues : GoMap Dynamic) (flag : Flag) :
    Outcome (FlagSet × GoMap Dynamic) :=
  if flag.flagType = flagInt then
    match flagset.define flag.long with
    | Outcome.returned flagset1 =>
      let flagValues1 := mapSet flagValues flag.long (Dynamic.ptrInt (some 0))
      match mapGet flagValues1 flag.long with
      | some (Dynamic.int _) =>
        match flagset1.define flag.short with
        | Outcome.returned flagset2 => Outcome.returned (flagset2, flagValues1)
        | Outcome.panicked msg => Outcome.panicked msg
        | Outcome.exited code => Outcome.exited code
        | Outcome.outOfFuel => Outcome.outOfFuel
      | _ => Outcome.returned (flagset1, flagValues1)
    | Outcome.panicked msg => Outcome.panicked msg
    | Outcome.exited code => Outcome.exited code
    | Outcome.outOfFuel => Outcome.outOfFuel
  else if flag.flagType = flagString then
    match flagset.define flag.long with
    | Outcome.returned flagset1 =>
      let flagValues1 := mapSet flagValues flag.long (Dynamic.ptrString (some ""))
      match mapGet flagValues1 flag.long with
      | some (Dynamic.string _) =>
        match flagset1.define flag.short with
        | Outcome.returned flagset2 => Outcome.returned (flagset2, flagValues1)
        | Outcome.panicked msg => Outcome.panicked msg
        | Outcome.exited code => Outcome.exited code
        | Outcome.outOfFuel => Outcome.outOfFuel
      | _ => Outcome.returned (flagset1, flagValues1)
    | Outcome.panicked msg => Outcome.panicked msg
    | Outcome.exited code => Outcome.exited code
    | Outcome.outOfFuel => Outcome.outOfFuel
  else if flag.flagType = flagBool then
    match flagset.define flag.long with
    | Outcome.returned flagset1 =>
      let flagValues1 := mapSet flagValues flag.long (Dynamic.ptrBool (some false))
      match mapGet flagValues1 flag.long with
      | some (Dynamic.bool _) =>
        match flagset1.define flag.short with
        | Outcome.returned flagset2 => Outcome.returned (flagset2, flagValues1)
        | Outcome.panicked msg => Outcome.panicked msg
        | Outcome.exited code => Outcome.exited code
        | Outcome.outOfFuel => Outcome.outOfFuel
      | _ => Outcome.returned (flagset1, flagValues1)
    | Outcome.panicked msg => Outcome.panicked msg
    | Outcome.exited code => Outcome.exited code
    | Outcome.outOfFuel => Outcome.outOfFuel
  else Outcome.returned (flagset, flagValues)

/-- The inner loop `for _, flag := range subcommand.flags`. -/
def registerFlags : List Flag → FlagSet → GoMap Dynamic → Outcome (FlagSet × GoMap Dynamic)
  | [], flagset, flagValues => Outcome.returned (flagset, flagValues)
  | flag :: rest, flagset, flagValues =>
    match registerFlag flagset flagValues flag with
    | Outcome.returned (flagset1, flagValues1) => registerFlags rest flagset1 flagValues1
    | Outcome.panicked msg => Outcome.panicked msg
    | Outcome.exited code => Outcome.exited code
    | Outcome.outOfFuel => Outcome.outOfFuel

/-- The function `registerSubcommands()` of args.go, on the package variable
`subcommands`: it returns the new value of the variable. -/
def registerSubcommands {σ : Type} : List (Subcommand σ) → Outcome (List (Subcommand σ))
  | [] => Outcome.returned []
  | subcommand :: rest =>
    match registerFlags subcommand.flags { name := subcommand.name, formal := [] } [] with
    | Outcome.returned (flagset, flagValues) =>
      match registerSubcommands rest with
      | Outcome.returned rest1 =>
        Outcome.returned
          ({ subcommand with flagValues := flagValues, flagset := some flagset } :: rest1)
      | Outcome.panicked msg => Outcome.panicked msg
      | Outcome.exited code => Outcome.exited code
      | Outcome.outOfFuel => Outcome.outOfFuel
    | Outcome.panicked msg => Outcome.panicked msg
    | Outcome.exited code => Outcome.exited code
    | Outcome.outOfFuel => Outcome.outOfFuel

/-- The loop of `buildSubcmdMap`, from index `i`. -/
def buildSubcmdMapFrom {σ : Type} : List (Subcommand σ) → Nat → GoMap Nat → GoMap Nat
  | [], _, subcmdMap => subcmdMap
  | subcmd :: rest, i, subcmdMap => buildSubcmdMapFrom rest (i + 1) (mapSet subcmdMap subcmd.name i)

/-- The function `buildSubcmdMap(subcmds)` of args.go. -/
def buildSubcmdMap {σ : Type} (subcmds : List (Subcommand σ)) : GoMap Nat :=
  buildSubcmdMapFrom subcmds 0 []

/-- The package variables `subcommands` and `subcmdMap` of args.go. -/
structure Globals (σ : Type) where
  subcommands : List (Subcommand σ)
  subcmdMap : GoMap Nat

/-- The function `init()` of args.go. The entry function of `purge` is
`purge.Purge`, here with the codec, the provider and the fuel it runs with. -/
def init {σ : Type} (c : Codec) (p : Provider σ) (fuel : Nat) : Outcome (Globals σ) :=
  let subcommands : List (Subcommand σ) :=
    [{ name := "purge",
       flags := [{ flagType := flagString, short := "h", long := "help",
                   description := "Invoke usage" }],
       flagValues := [],
       flagset := none,
       entryFunc := fun s flagVals => purge.Purge c p fuel s flagVals }]
  match registerSubcommands subcommands with
  | Outcome.returned subcommands1 =>
    Outcome.returned { subcommands := subcommands1, subcmdMap := buildSubcmdMap subcommands1 }
  | Outcome.panicked msg => Outcome.panicked msg
  | Outcome.exited code => Outcome.exited code
  | Outcome.outOfFuel => Outcome.outOfFuel

/-- A value that `flagset.Parse` stores through the pointer of a flag. -/
inductive Parsed where
  | int (v : Int)
  | string (v : String)
  | bool (v : Bool)
  deriving DecidableEq, Repr

/-- The library method `flagset.Parse(arguments)` of a flag set made with
`flag.ExitOnError`: it ends the process, or returns after storing values
through the pointers of some of the defined flags; the result lists the
flags set and the values stored. -/
abbrev FlagParse := FlagSet → List String → Outcome (List (String × Parsed))

/-- A store through the pointer that `registerFlag` made for the flag `name`.
That pointer is the value of `flagValues[name]`, so the variable seen through
the map changes; the keys of the map do not. -/
def storeParsed (flagValues : GoMap Dynamic) (name : String) (value : Parsed) : GoMap Dynamic :=
  match mapGet flagValues name, value with
  | some (Dynamic.ptrInt (some _)), Parsed.int v => mapSet flagValues name (Dynamic.ptrInt (some v))
  | some (Dynamic.ptrString (some _)), Parsed.string v =>
    mapSet flagValues name (Dynamic.ptrString (some v))
  | some (Dynamic.ptrBool (some _)), Parsed.bool v =>
    mapSet flagValues name (Dynamic.ptrBool (some v))
  | _, _ => flagValues

/-- All stores of one `Parse` call, in order. -/
def storeAll (flagValues : GoMap Dynamic) (stores : List (String × Parsed)) : GoMap Dynamic :=
  stores.foldl (fun m store => storeParsed m store.1 store.2) flagValues

/-- The function `parseSubcommand(subcmd)` of args.go, with `arguments` for
`os.Args[2:]`; it returns `(*Subcommand, error)`. -/
def parseSubcommand {σ : Type} (parse : FlagParse) (g : Globals σ) (subcmd : String)
    (arguments : List String) : Outcome (Option (Subcommand σ) × Option String) :=
  match mapGet g.subcmdMap subcmd with
  | none => Outcome.returned (none, some "Unknown subcommand")
  | some index =>
    match g.subcommands.get? index with
    | none => Outcome.panicked "index out of range"
    | some subcommand =>
      match subcommand.flagset with
      | none => Outcome.panicked "nil pointer dereference"
      | some flagset =>
        match parse flagset arguments with
        | Outcome.returned stores =>
          Outcome.returned
            (some { subcommand with flagValues := storeAll subcommand.flagValues stores }, none)
        | Outcome.panicked msg => Outcome.panicked msg
        | Outcome.exited code => Outcome.exited code
        | Outcome.outOfFuel => Outcome.outOfFuel

/-- The constant `usage` of core.go. -/
def usage : String := "\nusage: ddbtools [subcommand]\n"

/-- The function `errorWithUsage(err)` of core.go: two lines on stderr, then
`os.Exit(1)`. -/
def errorWithUsage {σ : Type} (s : σ) (err : String) : Exec σ Unit :=
  ⟨[Event.stderr (err ++ "\n"), Event.stderr (usage ++ "\n")], [], s, Outcome.exited 1⟩

/-- The function `Run()` of core.go, with `osArgs` for `os.Args`. -/
def Run {σ : Type} (parse : FlagParse) (g : Globals σ) (s : σ) (osArgs : List String) :
    Exec σ Unit :=
  if osArgs.length = 1 then ⟨[], [], s, Outcome.panicked "missing subcommand"⟩
  else
    match osArgs.get? 1 with
    | none => ⟨[], [], s, Outcome.panicked "index out of range"⟩
    | some name =>
      match parseSubcommand parse g name (osArgs.drop 2) with
      | Outcome.panicked msg => ⟨[], [], s, Outcome.panicked msg⟩
      | Outcome.exited code => ⟨[], [], s, Outcome.exited code⟩
      | Outcome.outOfFuel => ⟨[], [], s, Outcome.outOfFuel⟩
      | Outcome.returned (_, some err) => errorWithUsage s err
      | Outcome.returned (none, none) => ⟨[], [], s, Outcome.panicked "nil pointer dereference"⟩
      | Outcome.returned (some subcmd, none) =>
        let entered := subcmd.entryFunc s subcmd.flagValues
        match entered.outcome with
        | Outcome.returned (some err) =>
          ⟨entered.events, entered.tasks, entered.state, Outcome.panicked err⟩
        | Outcome.returned none =>
          ⟨entered.events, entered.tasks, entered.state, Outcome.returned ()⟩
        | Outcome.panicked msg => ⟨entered.events, entered.tasks, entered.state, Outcome.panicked msg⟩
        | Outcome.exited code => ⟨entered.events, entered.tasks, entered.state, Outcome.exited code⟩
        | Outcome.outOfFuel => ⟨entered.events, entered.tasks, entered.state, Outcome.outOfFuel⟩


/-! ## Vocabulary of the statements -/

/-- Reference partition used in the proofs: cut `B` elements off the front
until the list is empty. -/
def batchesOf {α : Type} (B : Nat) (l : List α) : List (List α) :=
  if _h : 0 < B ∧ 0 < l.length then l.take B :: batchesOf B (l.drop B) else []
termination_by l.length
decreasing_by
  simp only [List.length_drop]
  omega

/-- The provider, in state `s`, answers the successive requests of a scan of
`tableName` with the pages `pages`, one page per request, where the first
request carries `cursor` and each later one the cursor of the page before;
`failure = some err` adds that the request after the last page fails with
`err`. -/
def ServesPages {σ : Type} (p : Provider σ) (tableName : String) :
    σ → Option Item → List ScanOutput → Option String → Prop
  | s, cursor, [], failure =>
    match failure with
    | none => True
    | some err =>
      (p.Scan s { TableName := tableName, ExclusiveStartKey := cursor }).1 = Except.error err
  | s, cursor, page :: rest, failure =>
    (p.Scan s { TableName := tableName, ExclusiveStartKey := cursor }).1 = Except.ok page ∧
      ServesPages p tableName
        (p.Scan s { TableName := tableName, ExclusiveStartKey := cursor }).2
        page.LastEvaluatedKey rest failure

/-- The requests of a scan that is served `pages`: the first carries `cursor`,
each later one the cursor of the page before. -/
def scanInputs (tableName : String) : Option Item → List ScanOutput → List ScanInput
  | _, [] => []
  | cursor, page :: rest =>
    { TableName := tableName, ExclusiveStartKey := cursor }
      :: scanInputs tableName page.LastEvaluatedKey rest

/-- The cursor of the last page, or `cursor` when there is no page. -/
def lastCursor : Option Item → List ScanOutput → Option Item
  | cursor, [] => cursor
  | _, page :: rest => lastCursor page.LastEvaluatedKey rest

/-- Every page but the last carries a cursor and the last carries none. -/
def cursorsEndScan : List ScanOutput → Bool
  | [] => false
  | [last] => last.LastEvaluatedKey.isNone
  | page :: rest => page.LastEvaluatedKey.isSome && cursorsEndScan rest

/-- Every page carries a cursor. -/
def cursorsContinue (pages : List ScanOutput) : Bool :=
  pages.all (fun page => page.LastEvaluatedKey.isSome)

/-- The loop of a scan goes on after `cursor` through all of `pages`, and
then ends (`failure = none`) or issues one more request (`failure = some _`). -/
def cursorChain : Option Item → List ScanOutput → Option String → Prop
  | cursor, [], none => cursor = none
  | cursor, [], some _ => cursor.isSome = true
  | cursor, page :: rest, failure =>
    cursor.isSome = true ∧ cursorChain page.LastEvaluatedKey rest failure

/-- The request that fails, when one does. -/
def failingRequest (tableName : String) (cursor : Option Item) : Option String → List Event
  | none => []
  | some _ => [Event.scan { TableName := tableName, ExclusiveStartKey := cursor }]

/-- What a scan returns: the keys and the count, or the error of the request
that failed, with a nil key list and count 0. -/
def scanReturn (failure : Option String) (keys : List KeyPair) (count : Int) :
    Outcome (Option (List KeyPair) × Int × Option String) :=
  match failure with
  | none => Outcome.returned (some keys, count, none)
  | some err => Outcome.returned (none, 0, some err)

/-- The key of one record under a key schema: the partition attribute decoded
into a string that starts empty and, when the schema has a sort key, the sort
attribute decoded into a `*string` that starts nil. -/
def keyOf (c : Codec) (primaryKey : KeyPair) (record : Item) : KeyPair :=
  { PartitionKey := (c.UnmarshalString (mapGet record primaryKey.PartitionKey) "").1,
    SortKey :=
      match primaryKey.SortKey with
      | none => none
      | some sortName => (c.UnmarshalStringPtr (mapGet record sortName) none).1 }

/-- One key per item of each page, in item order, the pages in page order. -/
def extractKeys (c : Codec) (primaryKey : KeyPair) (pages : List ScanOutput) : List KeyPair :=
  (pages.map (fun page => page.Items.map (keyOf c primaryKey))).flatten

/-- The delete entry the claim on `deleteChunk` allows for a record: one with
the key map when `toDynamoDbApiKey` returned no error, none otherwise. -/
def marshalledEntry (c : Codec) (primaryKey : KeyPair) (record : KeyPair) : Option WriteRequest :=
  match (record.toDynamoDbApiKey c primaryKey).2 with
  | none => some { DeleteRequest := some { Key := (record.toDynamoDbApiKey c primaryKey).1 } }
  | some _ => none

/-- The sum of the counts of the pages. -/
def sumCounts (pages : List ScanOutput) : Int := (pages.map (fun page => page.Count)).sum

/-- The values of the Go type `int32`. -/
def isInt32 (x : Int) : Prop := -2 ^ 31 ≤ x ∧ x < 2 ^ 31

/-- The bulk-delete requests among a list of events, in order. -/
def bulkDeletes : List Event → List BatchWriteItemInput
  | [] => []
  | Event.batchWriteItem input :: rest => input :: bulkDeletes rest
  | _ :: rest => bulkDeletes rest

/-- The calls to the provider among a list of events, in order. -/
def providerCalls : List Event → List Event
  | [] => []
  | Event.stdout _ :: rest => providerCalls rest
  | Event.stderr _ :: rest => providerCalls rest
  | call :: rest => call :: providerCalls rest

/-- The bulk-delete request that `deleteChunk` builds for a batch: one
write request per record, in order, with the key map of the record, or with
a nil key map when the key of the record did not marshal. -/
def deleteRequestFor (c : Codec) (tableName : String) (primaryKey : KeyPair)
    (batch : List KeyPair) : BatchWriteItemInput :=
  { RequestItems := [(tableName,
      batch.map (fun record =>
        ({ DeleteRequest := some { Key := (record.toDynamoDbApiKey c primaryKey).1 } }
          : WriteRequest)))] }

/-- A simulated provider that plays a script: `DescribeTable` always gives
`description`, the n-th `Scan` call gets the n-th entry of the script (the
state is what is left of the script), and the bulk-delete request of the
goroutine for batch `k` gets `deletes k` of the request. -/
def scriptedProvider (description : Except String DescribeTableOutput)
    (deletes : Nat → BatchWriteItemInput → Option String) :
    Provider (List (Except String ScanOutput)) where
  DescribeTable := fun s _ => (description, s)
  Scan := fun s _ =>
    match s with
    | [] => (Except.error "script exhausted", [])
    | response :: rest => (response, rest)
  BatchWriteItem := deletes

/-- The number of write requests in a bulk-delete request. -/
def requestSize (input : BatchWriteItemInput) : Nat :=
  (input.RequestItems.map (fun entry => entry.2.length)).sum

/-! ## Example data -/

/-- A table description with partition key `id` and no sort key. -/
def idSchema : DescribeTableOutput :=
  { Table := some { KeySchema := [{ AttributeName := some "id", KeyType := KeyTypeHash }] } }

/-- The table `t` before its key schema is resolved. -/
def tableT : Table := { TableName := "t", PrimaryKey := none }

/-- The table `t` with the key schema `id`. -/
def tableTid : Table := { TableName := "t", PrimaryKey := some { PartitionKey := "id", SortKey := none } }

/-- A record with the string key `id = v`. -/
def idRecord (v : String) : Item := [("id", AttributeValue.S v)]

/-- Two pages of one record each; the first carries a cursor. -/
def twoPages : List ScanOutput :=
  [{ Items := [idRecord "a"], Count := 1, LastEvaluatedKey := some (idRecord "a") },
   { Items := [idRecord "b"], Count := 1, LastEvaluatedKey := none }]

/-- Two pages whose counts are `int32` values that add up to `2 ^ 31`. -/
def overflowPages : List ScanOutput :=
  [{ Items := [idRecord "a"], Count := 2147483647, LastEvaluatedKey := some (idRecord "a") },
   { Items := [idRecord "b"], Count := 1, LastEvaluatedKey := none }]

/-- No bulk-delete request fails. -/
def allDeletesSucceed : Nat → BatchWriteItemInput → Option String := fun _ _ => none

/-- A page of one record that carries a cursor, then a request that fails. -/
def failingScript : List (Except String ScanOutput) :=
  [Except.ok { Items := [idRecord "a"], Count := 1, LastEvaluatedKey := some (idRecord "a") },
   Except.error "throttled"]

/-- Sixty keys `k`, with no sort component. -/
def sixtyKeys : List KeyPair := List.replicate 60 { PartitionKey := "k", SortKey := none }

/-- One page with sixty records `id = k`, count 60 and no cursor. -/
def sixtyPage : ScanOutput :=
  { Items := List.replicate 60 (idRecord "k"), Count := 60, LastEvaluatedKey := none }

/-- The third bulk-delete request fails, the others succeed. -/
def thirdDeleteFails : Nat → BatchWriteItemInput → Option String :=
  fun k _ => if k = 2 then some "throttled" else none

/-- Three keys. -/
def threeKeys : List KeyPair :=
  [{ PartitionKey := "a", SortKey := none }, { PartitionKey := "b", SortKey := some "1" },
   { PartitionKey := "c", SortKey := none }]

/-- A flag map that names the table `t`. -/
def flagsT : GoMap Dynamic := [("table-name", Dynamic.ptrString (some "t"))]

/-- A record of a table with partition key `tenant` and sort key `ts`, both
strings. -/
def tenantRecord : Item :=
  [("tenant", AttributeValue.S "acme"), ("ts", AttributeValue.S "2024"),
   ("payload", AttributeValue.N "7")]

/-- The key schema `tenant`, `ts`. -/
def tenantKey : KeyPair := { PartitionKey := "tenant", SortKey := some "ts" }

/-- The key schema `id`. -/
def idKey : KeyPair := { PartitionKey := "id", SortKey := none }

/-- The package variables of args.go once `init` has run. -/
def registered {σ : Type} (c : Codec) (p : Provider σ) (fuel : Nat) : Globals σ :=
  { subcommands :=
      [{ name := "purge",
         flags := [{ flagType := flagString, short := "h", long := "help",
                     description := "Invoke usage" }],
         flagValues := [("help", Dynamic.ptrString (some ""))],
         flagset := some { name := "purge", formal := ["help"] },
         entryFunc := fun s flagVals => purge.Purge c p fuel s flagVals }],
    subcmdMap := [("purge", 0)] }

/-! ## Theorems: chunkRecords -/

theorem wrapInt64_of_bounds (x : Int) (h0 : 0 ≤ x) (h1 : x < 2 ^ 63) : wrapInt64 x = x := by
  unfold wrapInt64
  have h : (x + 2 ^ 63) % 2 ^ 64 = x + 2 ^ 63 := Int.emod_eq_of_lt (by omega) (by omega)
  omega

theorem batchesOf_nil {α : Type} (B : Nat) : batchesOf B ([] : List α) = [] := by
  rw [batchesOf]; simp

theorem batchesOf_of_ne_nil {α : Type} (B : Nat) (hB : 0 < B) (l : List α) (hl : l ≠ []) :
    batchesOf B l = l.take B :: batchesOf B (l.drop B) := by
  have h2 := List.length_pos.mpr hl
  rw [batchesOf]; simp [hB, h2]

/-- Induction along the recursion of `batchesOf`. -/
theorem batches_induction {α : Type} (B : Nat) (hB : 0 < B) (P : List α → Prop) (h0 : P [])
    (hstep : ∀ l, l ≠ [] → P (l.drop B) → P l) : ∀ l, P l := by
  intro l
  generalize hn : l.length = n
  induction n using Nat.strong_induction_on generalizing l with
  | _ n ih =>
    by_cases hl : l = []
    · subst hl; exact h0
    · apply hstep l hl
      have hpos := List.length_pos.mpr hl
      apply ih (l.drop B).length _ _ rfl
      simp only [List.length_drop]
      omega

theorem batchesOf_flatten {α : Type} (B : Nat) (hB : 0 < B) (l : List α) :
    (batchesOf B l).flatten = l := by
  apply batches_induction B hB (fun l => (batchesOf B l).flatten = l)
  · simp [batchesOf_nil]
  · intro l hl ih
    rw [batchesOf_of_ne_nil B hB l hl, List.flatten_cons, ih, List.take_append_drop]

theorem batchesOf_length_bounds {α : Type} (B : Nat) (hB : 0 < B) (l : List α) :
    l.length ≤ (batchesOf B l).length * B ∧ (batchesOf B l).length * B < l.length + B := by
  apply batches_induction B hB
    (fun l => l.length ≤ (batchesOf B l).length * B ∧ (batchesOf B l).length * B < l.length + B)
  · simp [batchesOf_nil, hB]
  · intro l hl ih
    have hpos := List.length_pos.mpr hl
    rw [batchesOf_of_ne_nil B hB l hl, List.length_cons, Nat.succ_mul]
    rw [List.length_drop] at ih
    by_cases hq : (batchesOf B (List.drop B l)).length = 0
    · rw [hq] at ih ⊢
      omega
    · have hge : B ≤ (batchesOf B (List.drop B l)).length * B :=
        Nat.le_mul_of_pos_left _ (Nat.pos_of_ne_zero hq)
      generalize (batchesOf B (List.drop B l)).length * B = m at ih hge ⊢
      omega

theorem batchesOf_sizes {α : Type} (B : Nat) (hB : 0 < B) (l : List α) :
    (∀ b ∈ batchesOf B l, 1 ≤ b.length ∧ b.length ≤ B) ∧
      (∀ (j : Nat) (hj : j < (batchesOf B l).length), j + 1 < (batchesOf B l).length →
        ((batchesOf B l).get ⟨j, hj⟩).length = B) := by
  apply batches_induction B hB
    (fun l => (∀ b ∈ batchesOf B l, 1 ≤ b.length ∧ b.length ≤ B) ∧
      (∀ (j : Nat) (hj : j < (batchesOf B l).length), j + 1 < (batchesOf B l).length →
        ((batchesOf B l).get ⟨j, hj⟩).length = B))
  · simp [batchesOf_nil]
  · intro l hl ih
    have hpos := List.length_pos.mpr hl
    have hunf := batchesOf_of_ne_nil B hB l hl
    constructor
    · intro b hb
      rw [hunf] at hb
      rcases List.mem_cons.mp hb with h | h
      · subst h
        rw [List.length_take]
        omega
      · exact ih.1 b h
    · intro j hj hj2
      have key : ∀ (L : List (List α)) (hL : L = l.take B :: batchesOf B (l.drop B))
          (hjL : j < L.length), j + 1 < L.length → (L.get ⟨j, hjL⟩).length = B := by
        intro L hL hjL hj2L
        subst hL
        cases j with
        | zero =>
          simp only [List.length_cons] at hj2L
          have hne : batchesOf B (l.drop B) ≠ [] := by
            intro h; rw [h] at hj2L; simp at hj2L
          have hdrop : l.drop B ≠ [] := by
            intro h; apply hne; rw [h, batchesOf_nil]
          have hlen := List.length_pos.mpr hdrop
          rw [List.length_drop] at hlen
          simp only [List.get_eq_getElem, List.getElem_cons_zero, List.length_take]
          omega
        | succ j =>
          simp only [List.length_cons] at hj2L hjL
          simp only [List.get_eq_getElem, List.getElem_cons_succ]
          have := ih.2 j (by omega) (by omega)
          simpa [List.get_eq_getElem] using this
      exact key _ hunf hj hj2

theorem chunkLoop_succ (records : List KeyPair) (chunkSize : Int) (fuel : Nat) (i : Int)
    (acc : List (List KeyPair)) :
    chunkLoop records chunkSize (fuel + 1) i acc =
      if i < (records.length : Int) then
        match sliceExpr records i
          (if wrapInt64 (i + chunkSize) > (records.length : Int) then (records.length : Int)
           else wrapInt64 (i + chunkSize)) with
        | none => Outcome.panicked "slice bounds out of range"
        | some batch =>
          chunkLoop records chunkSize fuel (wrapInt64 (i + chunkSize)) (acc ++ [batch])
      else Outcome.returned acc := rfl

theorem chunkLoop_eq_batchesOf (records : List KeyPair) (B : Nat) (hB : 0 < B)
    (hlen : records.length < 2 ^ 62) :
    ∀ (fuel i : Nat) (acc : List (List KeyPair)),
      (i < records.length → (i : Int) + B < 2 ^ 63) →
      records.length - i < fuel →
      chunkLoop records (B : Int) fuel (i : Int) acc
        = Outcome.returned (acc ++ batchesOf B (records.drop i)) := by
  intro fuel
  induction fuel with
  | zero => intro i acc _ h; omega
  | succ fuel ih =>
    intro i acc hov hfuel
    by_cases hi : i < records.length
    · have hov2 := hov hi
      have hw : wrapInt64 ((i : Int) + B) = (i : Int) + B :=
        wrapInt64_of_bounds _ (by omega) hov2
      have hne : records.drop i ≠ [] := by
        intro h
        have := congrArg List.length h
        simp at this
        omega
      have hi2 : (i : Int) < (records.length : Int) := by exact_mod_cast hi
      rw [chunkLoop_succ, if_pos hi2, hw]
      have hcast : (i : Int) + (B : Int) = ((i + B : Nat) : Int) := by push_cast; rfl
      rw [hcast]
      by_cases hend : i + B > records.length
      · have hend2 : ((i + B : Nat) : Int) > (records.length : Int) := by exact_mod_cast hend
        rw [if_pos hend2]
        have hs : sliceExpr records (i : Int) (records.length : Int)
            = some ((records.drop i).take (records.length - i)) := by
          unfold sliceExpr
          have : (0 : Int) ≤ i ∧ (i : Int) ≤ records.length
              ∧ (records.length : Int) ≤ records.length := by
            omega
          rw [if_pos this, Int.toNat_ofNat, Int.toNat_ofNat]
        rw [hs]
        simp only
        rw [ih (i + B) _ (by intro h; omega) (by omega)]
        rw [batchesOf_of_ne_nil B hB _ hne]
        have hd : List.drop (i + B) records = [] := by
          apply List.drop_eq_nil_of_le; omega
        have hd2 : List.drop B (List.drop i records) = [] := by
          apply List.drop_eq_nil_of_le; simp; omega
        have ht : List.take (records.length - i) (List.drop i records)
            = List.take B (List.drop i records) := by
          rw [List.take_of_length_le (by simp), List.take_of_length_le (by simp; omega)]
        rw [hd, hd2, ht, batchesOf_nil]
        simp
      · have hend2 : ¬ ((i + B : Nat) : Int) > (records.length : Int) := by
          intro h; apply hend; exact_mod_cast h
        rw [if_neg hend2]
        have hs : sliceExpr records (i : Int) ((i + B : Nat) : Int)
            = some ((records.drop i).take B) := by
          unfold sliceExpr
          have : (0 : Int) ≤ i ∧ (i : Int) ≤ ((i + B : Nat) : Int)
              ∧ ((i + B : Nat) : Int) ≤ records.length := by
            omega
          rw [if_pos this, Int.toNat_ofNat, Int.toNat_ofNat, Nat.add_sub_cancel_left]
        rw [hs]
        simp only
        rw [ih (i + B) _ (by intro h; omega) (by omega)]
        rw [batchesOf_of_ne_nil B hB _ hne]
        simp [List.drop_drop, Nat.add_comm]
    · have hi2 : ¬ (i : Int) < (records.length : Int) := by
        intro h; apply hi; exact_mod_cast h
      have hd : List.drop i records = [] := by
        apply List.drop_eq_nil_of_le; omega
      rw [chunkLoop_succ, if_neg hi2, hd, batchesOf_nil]
      simp

/-- With enough fuel and no overflow `chunkRecords` returns the reference
partition. -/
theorem chunkRecords_eq_batchesOf (records : List KeyPair) (B fuel : Nat) (hB : 0 < B)
    (hInt : B < 2 ^ 63) (hlen : records.length < 2 ^ 62) (hfuel : records.length < fuel) :
    chunkRecords fuel records (B : Int) = Outcome.returned (batchesOf B records) := by
  have h := chunkLoop_eq_batchesOf records B hB hlen fuel 0 []
    (by intro _; push_cast; omega) (by omega)
  simpa [chunkRecords] using h

/-- C1: for every key list and every chunk size `B > 0`, `chunkRecords`
returns, and concatenating the batches it returns, in order, gives back the
key list itself: same `KeyPair` values, same order. (`B` is a Go `int`, a
slice of 24-byte structs has fewer than `2 ^ 62` elements, and the fuel covers
one evaluation of the loop head per record and one more.) -/
theorem chunkRecords_flatten (records : List KeyPair) (B fuel : Nat) (hB : 0 < B)
    (hInt : B < 2 ^ 63) (hlen : records.length < 2 ^ 62) (hfuel : records.length < fuel) :
    ∃ batches, chunkRecords fuel records (B : Int) = Outcome.returned batches ∧
      batches.flatten = records :=
  ⟨batchesOf B records, chunkRecords_eq_batchesOf records B fuel hB hInt hlen hfuel,
    batchesOf_flatten B hB records⟩

/-- The shape of the reference partition: `⌈N / B⌉` batches, none for the
empty list, `B` items in every batch but the last and 1 to `B` items in
every batch. -/
theorem batchesOf_shape {α : Type} (B : Nat) (hB : 0 < B) (l : List α) :
    ((batchesOf B l).length : Int) = ⌈(l.length : ℚ) / (B : ℚ)⌉ ∧
      (l = [] → batchesOf B l = []) ∧
      (∀ (j : Nat) (hj : j < (batchesOf B l).length), j + 1 < (batchesOf B l).length →
        ((batchesOf B l).get ⟨j, hj⟩).length = B) ∧
      (∀ b ∈ batchesOf B l, 1 ≤ b.length ∧ b.length ≤ B) := by
  refine ⟨?_, ?_, (batchesOf_sizes B hB l).2, (batchesOf_sizes B hB l).1⟩
  · obtain ⟨h1, h2⟩ := batchesOf_length_bounds B hB l
    have hBq : (0 : ℚ) < (B : ℚ) := by exact_mod_cast hB
    symm
    rw [Int.ceil_eq_iff]
    constructor
    · rw [lt_div_iff₀ hBq]
      have : (((batchesOf B l).length * B : Nat) : ℚ) < ((l.length + B : Nat) : ℚ) := by
        exact_mod_cast h2
      push_cast at this ⊢
      linarith
    · rw [div_le_iff₀ hBq]
      have : ((l.length : Nat) : ℚ) ≤ (((batchesOf B l).length * B : Nat) : ℚ) := by
        exact_mod_cast h1
      push_cast at this ⊢
      linarith
  · intro h; rw [h, batchesOf_nil]

/-- C2: for a key list of length `N` and a chunk size `B > 0`, `chunkRecords`
returns exactly `⌈N / B⌉` batches, none for the empty list; every batch but
the last has exactly `B` items and every batch, the last included, has
between 1 and `B` items. -/
theorem chunkRecords_shape (records : List KeyPair) (B fuel : Nat) (hB : 0 < B)
    (hInt : B < 2 ^ 63) (hlen : records.length < 2 ^ 62) (hfuel : records.length < fuel) :
    ∃ batches, chunkRecords fuel records (B : Int) = Outcome.returned batches ∧
      (batches.length : Int) = ⌈(records.length : ℚ) / (B : ℚ)⌉ ∧
      (records = [] → batches = []) ∧
      (∀ (j : Nat) (hj : j < batches.length), j + 1 < batches.length →
        (batches.get ⟨j, hj⟩).length = B) ∧
      (∀ b ∈ batches, 1 ≤ b.length ∧ b.length ≤ B) :=
  ⟨batchesOf B records, chunkRecords_eq_batchesOf records B fuel hB hInt hlen hfuel,
    batchesOf_shape B hB records⟩

/-- C1 at three keys cut into batches of two. -/
theorem chunkRecords_flatten_witness :
    (0 < 2 ∧ 2 < 2 ^ 63 ∧ threeKeys.length < 2 ^ 62 ∧ threeKeys.length < 4) ∧
    ∃ batches, chunkRecords 4 threeKeys ((2 : Nat) : Int) = Outcome.returned batches ∧
      batches.flatten = threeKeys :=
  ⟨by decide, chunkRecords_flatten threeKeys 2 4 (by decide) (by decide) (by decide) (by decide)⟩

/-- C2 at three keys cut into batches of two. -/
theorem chunkRecords_shape_witness :
    (0 < 2 ∧ 2 < 2 ^ 63 ∧ threeKeys.length < 2 ^ 62 ∧ threeKeys.length < 4) ∧
    ∃ batches, chunkRecords 4 threeKeys ((2 : Nat) : Int) = Outcome.returned batches ∧
      (batches.length : Int) = ⌈(threeKeys.length : ℚ) / ((2 : Nat) : ℚ)⌉ ∧
      (threeKeys = [] → batches = []) ∧
      (∀ (j : Nat) (hj : j < batches.length), j + 1 < batches.length →
        (batches.get ⟨j, hj⟩).length = 2) ∧
      (∀ b ∈ batches, 1 ≤ b.length ∧ b.length ≤ 2) :=
  ⟨by decide, chunkRecords_shape threeKeys 2 4 (by decide) (by decide) (by decide) (by decide)⟩


/-! ## Theorems: Table.Scan -/

theorem wrapInt32_of_isInt32 (x : Int) (h : isInt32 x) : wrapInt32 x = x := by
  unfold isInt32 at h
  unfold wrapInt32
  have h2 : (x + 2 ^ 31) % 2 ^ 32 = x + 2 ^ 31 := Int.emod_eq_of_lt (by omega) (by omega)
  omega

theorem wrapInt32_add_wrapInt32 (a b : Int) : wrapInt32 (wrapInt32 a + b) = wrapInt32 (a + b) := by
  unfold wrapInt32
  omega

/-- The count after the loop has added the counts of `pages` to `count`. -/
theorem foldl_wrapInt32 (pages : List ScanOutput) :
    ∀ count : Int, pages.foldl (fun acc page => wrapInt32 (acc + page.Count)) (wrapInt32 count)
      = wrapInt32 (count + sumCounts pages) := by
  induction pages with
  | nil => intro count; simp [sumCounts]
  | cons page rest ih =>
    intro count
    simp only [List.foldl_cons, wrapInt32_add_wrapInt32]
    rw [ih]
    simp [sumCounts, add_assoc]

/-- The function `appendChunkToKeyArray` appends the key of every record of
the chunk, in order. -/
theorem appendChunkToKeyArray_eq_map (c : Codec) (primaryKey : KeyPair) (keys : List KeyPair)
    (chunk : List Item) :
    appendChunkToKeyArray c primaryKey keys chunk = keys ++ chunk.map (keyOf c primaryKey) := by
  unfold appendChunkToKeyArray
  cases hsort : primaryKey.SortKey with
  | none =>
    simp only
    induction chunk using List.reverseRecOn with
    | nil => simp
    | append_singleton rest record ih =>
      simp only [KeyPair.zero] at ih
      simp [List.foldl_append, ih, keyOf, hsort, KeyPair.zero]
  | some sortName =>
    simp only
    induction chunk using List.reverseRecOn with
    | nil => simp
    | append_singleton rest record ih =>
      simp only [KeyPair.zero] at ih
      simp [List.foldl_append, ih, keyOf, hsort, KeyPair.zero]

theorem scanLoop_succ {σ : Type} (c : Codec) (p : Provider σ) (table : Table) (fuel : Nat) (s : σ)
    (events : List Event) (cursor : Option Item) (count : Int) (keys : List KeyPair) :
    scanLoop c p table (fuel + 1) s events cursor count keys =
      match cursor with
      | none => ⟨events, [], s, Outcome.returned (some keys, count, none)⟩
      | some startKey =>
        match p.Scan s { TableName := table.TableName, ExclusiveStartKey := some startKey } with
        | (Except.error err, s1) =>
          ⟨events ++ [Event.scan { TableName := table.TableName, ExclusiveStartKey := some startKey }],
            [], s1, Outcome.returned (none, 0, some err)⟩
        | (Except.ok response, s1) =>
          match table.PrimaryKey with
          | none =>
            ⟨events ++ [Event.scan { TableName := table.TableName, ExclusiveStartKey := some startKey }],
              [], s1, Outcome.panicked "nil pointer dereference"⟩
          | some primaryKey =>
            scanLoop c p table fuel s1
              (events ++ [Event.scan { TableName := table.TableName, ExclusiveStartKey := some startKey }])
              response.LastEvaluatedKey (wrapInt32 (count + response.Count))
              (appendChunkToKeyArray c primaryKey keys response.Items) := rfl

/-- The loop of `Table.Scan` against a provider that serves `pages`. -/
theorem scanLoop_served {σ : Type} (c : Codec) (p : Provider σ) (table : Table)
    (primaryKey : KeyPair) (hpk : table.PrimaryKey = some primaryKey) (failure : Option String) :
    ∀ (pages : List ScanOutput) (fuel : Nat) (s : σ) (events : List Event) (cursor : Option Item)
      (count : Int) (keys : List KeyPair),
      ServesPages p table.TableName s cursor pages failure →
      cursorChain cursor pages failure →
      pages.length < fuel →
      (scanLoop c p table fuel s events cursor count keys).tasks = [] ∧
      (scanLoop c p table fuel s events cursor count keys).events
        = events ++ ((scanInputs table.TableName cursor pages).map Event.scan ++
            failingRequest table.TableName (lastCursor cursor pages) failure) ∧
      (scanLoop c p table fuel s events cursor count keys).outcome
        = scanReturn failure (keys ++ extractKeys c primaryKey pages)
            (pages.foldl (fun acc page => wrapInt32 (acc + page.Count)) count) := by
  intro pages
  induction pages with
  | nil =>
    intro fuel s events cursor count keys hserve hchain hfuel
    obtain ⟨fuel, rfl⟩ : ∃ k, fuel = k + 1 := ⟨fuel - 1, by simp at hfuel; omega⟩
    rw [scanLoop_succ]
    cases failure with
    | none =>
      simp only [cursorChain] at hchain
      subst hchain
      simp [scanInputs, extractKeys, failingRequest, scanReturn]
    | some err =>
      simp only [cursorChain] at hchain
      obtain ⟨startKey, rfl⟩ := Option.isSome_iff_exists.mp hchain
      simp only [ServesPages] at hserve
      simp only []
      rcases hscan : p.Scan s { TableName := table.TableName, ExclusiveStartKey := some startKey }
        with ⟨r, s1⟩
      rw [hscan] at hserve
      simp only at hserve
      subst hserve
      simp [scanInputs, lastCursor, failingRequest, scanReturn]
  | cons page rest ih =>
    intro fuel s events cursor count keys hserve hchain hfuel
    obtain ⟨fuel, rfl⟩ : ∃ k, fuel = k + 1 := ⟨fuel - 1, by simp at hfuel; omega⟩
    rw [scanLoop_succ]
    simp only [cursorChain] at hchain
    obtain ⟨hsome, hchain⟩ := hchain
    obtain ⟨startKey, rfl⟩ := Option.isSome_iff_exists.mp hsome
    simp only [ServesPages] at hserve
    obtain ⟨hfirst, hserve⟩ := hserve
    simp only []
    rcases hscan : p.Scan s { TableName := table.TableName, ExclusiveStartKey := some startKey }
      with ⟨r, s1⟩
    rw [hscan] at hfirst hserve
    simp only at hfirst hserve
    subst hfirst
    simp only [hpk]
    have h := ih fuel s1
      (events ++ [Event.scan { TableName := table.TableName, ExclusiveStartKey := some startKey }])
      page.LastEvaluatedKey (wrapInt32 (count + page.Count))
      (appendChunkToKeyArray c primaryKey keys page.Items) hserve hchain
      (by simp at hfuel; omega)
    obtain ⟨h1, h2, h3⟩ := h
    refine ⟨h1, ?_, ?_⟩
    · rw [h2]
      simp [scanInputs, lastCursor]
    · rw [h3]
      cases failure with
      | none =>
        simp only [List.foldl_cons, scanReturn]
        rw [appendChunkToKeyArray_eq_map]
        simp [extractKeys]
      | some err => rfl

theorem cursorChain_of_cursorsEndScan :
    ∀ (first : ScanOutput) (rest : List ScanOutput), cursorsEndScan (first :: rest) = true →
      cursorChain first.LastEvaluatedKey rest none := by
  intro first rest
  induction rest generalizing first with
  | nil =>
    intro h
    simp only [cursorsEndScan, Option.isNone_iff_eq_none] at h
    simpa [cursorChain] using h
  | cons page rest ih =>
    intro h
    simp only [cursorsEndScan, Bool.and_eq_true] at h
    exact ⟨h.1, ih page h.2⟩

theorem cursorChain_of_cursorsContinue (err : String) :
    ∀ (first : ScanOutput) (rest : List ScanOutput), cursorsContinue (first :: rest) = true →
      cursorChain first.LastEvaluatedKey rest (some err) := by
  intro first rest
  induction rest generalizing first with
  | nil =>
    intro h
    simp only [cursorsContinue, List.all_cons, List.all_nil, Bool.and_true] at h
    simpa [cursorChain] using h
  | cons page rest ih =>
    intro h
    simp only [cursorsContinue, List.all_cons, Bool.and_eq_true] at h
    refine ⟨h.1, ih page ?_⟩
    simp only [cursorsContinue, List.all_cons, Bool.and_eq_true]
    exact h.2

/-- What `Table.Scan` does against a provider that serves `first :: rest`. -/
theorem Table.Scan_served {σ : Type} (c : Codec) (p : Provider σ) (table : Table)
    (primaryKey : KeyPair) (hpk : table.PrimaryKey = some primaryKey) (failure : Option String)
    (first : ScanOutput) (rest : List ScanOutput) (fuel : Nat) (s : σ)
    (hserve : ServesPages p table.TableName s none (first :: rest) failure)
    (hchain : cursorChain first.LastEvaluatedKey rest failure)
    (hfuel : rest.length < fuel) :
    (table.Scan c p fuel s).tasks = [] ∧
    (table.Scan c p fuel s).events
      = (scanInputs table.TableName none (first :: rest)).map Event.scan ++
          failingRequest table.TableName (lastCursor none (first :: rest)) failure ∧
    (table.Scan c p fuel s).outcome
      = scanReturn failure (extractKeys c primaryKey (first :: rest))
          (rest.foldl (fun acc page => wrapInt32 (acc + page.Count)) first.Count) := by
  simp only [ServesPages] at hserve
  obtain ⟨hfirst, hserve⟩ := hserve
  unfold Table.Scan
  simp only []
  rcases hscan : p.Scan s { TableName := table.TableName, ExclusiveStartKey := none }
    with ⟨r, s1⟩
  rw [hscan] at hfirst hserve
  simp only at hfirst hserve
  subst hfirst
  simp only [hpk]
  obtain ⟨h1, h2, h3⟩ := scanLoop_served c p table primaryKey hpk failure rest fuel s1
    [Event.scan { TableName := table.TableName, ExclusiveStartKey := none }]
    first.LastEvaluatedKey first.Count (appendChunkToKeyArray c primaryKey [] first.Items)
    hserve hchain hfuel
  refine ⟨h1, ?_, ?_⟩
  · rw [h2]; simp [scanInputs, lastCursor]
  · rw [h3]
    cases failure with
    | none => simp [extractKeys, scanReturn, appendChunkToKeyArray_eq_map]
    | some err => rfl


/-- C3, as stated, fails on the count: a provider serves two pages with the
`int32` counts `2147483647` and `1`, the first with a cursor and the second
without. The scan returns the two keys and no error, but the count it returns
is `-2147483648`, not the sum `2147483648` of the counts. -/
theorem Table.Scan_count_wraps :
    ServesPages (scriptedProvider (Except.ok idSchema) allDeletesSucceed) tableTid.TableName
      (overflowPages.map Except.ok) none overflowPages none ∧
    cursorsEndScan overflowPages = true ∧
    (∀ page ∈ overflowPages, isInt32 page.Count) ∧
    sumCounts overflowPages = 2147483648 ∧
    (tableTid.Scan sdkCodec (scriptedProvider (Except.ok idSchema) allDeletesSucceed) 2
        (overflowPages.map Except.ok)).outcome
      = Outcome.returned
          (some [{ PartitionKey := "a", SortKey := none }, { PartitionKey := "b", SortKey := none }],
            -2147483648, none) ∧
    (tableTid.Scan sdkCodec (scriptedProvider (Except.ok idSchema) allDeletesSucceed) 2
        (overflowPages.map Except.ok)).outcome
      ≠ Outcome.returned
          (some ((overflowPages.map (fun page =>
              page.Items.map (keyOf sdkCodec { PartitionKey := "id", SortKey := none }))).flatten),
            sumCounts overflowPages, none) := by
  refine ⟨?_, ?_, ?_, ?_, ?_, ?_⟩
  · simp [ServesPages, overflowPages, scriptedProvider]
  · rfl
  · intro page hpage
    simp only [overflowPages, List.mem_cons, List.mem_singleton, List.not_mem_nil, or_false] at hpage
    rcases hpage with h | h <;> subst h <;> simp [isInt32]
  · rfl
  · rfl
  · decide

/-- C3, amended: against a provider that answers the scan with a finite
sequence of successful pages, every page but the last with a cursor and the
last without, `Table.Scan` issues one request per page (the first with no
cursor, each later one with the cursor of the page before), returns, and
returns one key per item of the pages, the key of that item (`keyOf`: its
partition attribute and, with a sort key in the schema, its sort attribute),
in item order within a page and in page order, no error, and as
count the sum of the page counts wrapped to `int32`, which is the sum itself
whenever the sum is an `int32` value. -/
theorem Table.Scan_pages {σ : Type} (c : Codec) (p : Provider σ) (table : Table)
    (primaryKey : KeyPair) (pages : List ScanOutput) (fuel : Nat) (s : σ)
    (hpk : table.PrimaryKey = some primaryKey)
    (hserve : ServesPages p table.TableName s none pages none)
    (hcursors : cursorsEndScan pages = true)
    (hcounts : ∀ page ∈ pages, isInt32 page.Count)
    (hfuel : pages.length ≤ fuel) :
    (table.Scan c p fuel s).events = (scanInputs table.TableName none pages).map Event.scan ∧
    (table.Scan c p fuel s).events.length = pages.length ∧
    (table.Scan c p fuel s).tasks = [] ∧
    (table.Scan c p fuel s).outcome
      = Outcome.returned
          (some ((pages.map (fun page => page.Items.map (keyOf c primaryKey))).flatten),
            wrapInt32 (sumCounts pages), none) ∧
    (isInt32 (sumCounts pages) →
      (table.Scan c p fuel s).outcome
        = Outcome.returned
            (some ((pages.map (fun page => page.Items.map (keyOf c primaryKey))).flatten),
              sumCounts pages, none)) := by
  cases pages with
  | nil => simp [cursorsEndScan] at hcursors
  | cons first rest =>
    have hchain := cursorChain_of_cursorsEndScan first rest hcursors
    obtain ⟨h1, h2, h3⟩ := Table.Scan_served c p table primaryKey hpk none first rest fuel s
      hserve hchain (by simp at hfuel; omega)
    have hlen : ∀ (cursor : Option Item) (l : List ScanOutput),
        (scanInputs table.TableName cursor l).length = l.length := by
      intro cursor l
      induction l generalizing cursor with
      | nil => rfl
      | cons page l ih => simp [scanInputs, ih]
    have hcount : rest.foldl (fun acc page => wrapInt32 (acc + page.Count)) first.Count
        = wrapInt32 (sumCounts (first :: rest)) := by
      have hfirst := wrapInt32_of_isInt32 first.Count (hcounts first (List.mem_cons_self _ _))
      have := foldl_wrapInt32 rest first.Count
      rw [hfirst] at this
      rw [this]
      simp [sumCounts]
    have hout : (table.Scan c p fuel s).outcome
        = Outcome.returned
            (some (((first :: rest).map (fun page => page.Items.map (keyOf c primaryKey))).flatten),
              wrapInt32 (sumCounts (first :: rest)), none) := by
      rw [h3, hcount]; rfl
    refine ⟨?_, ?_, h1, hout, ?_⟩
    · rw [h2]; simp [failingRequest]
    · rw [h2]; simp [failingRequest, hlen]
    · intro hsum
      rw [hout, wrapInt32_of_isInt32 _ hsum]

/-- The amended C3 at a concrete provider: two pages of one record each, with
the keys `a` and `b`; the scan returns these two keys and the count 2. -/
theorem Table.Scan_pages_witness :
    ((tableTid.Scan sdkCodec (scriptedProvider (Except.ok idSchema) allDeletesSucceed) 2
        (twoPages.map Except.ok)).outcome
      = Outcome.returned
          (some [{ PartitionKey := "a", SortKey := none }, { PartitionKey := "b", SortKey := none }],
            2, none)) ∧
    (tableTid.Scan sdkCodec (scriptedProvider (Except.ok idSchema) allDeletesSucceed) 2
        (twoPages.map Except.ok)).events
      = (scanInputs tableTid.TableName none twoPages).map Event.scan ∧
    (tableTid.Scan sdkCodec (scriptedProvider (Except.ok idSchema) allDeletesSucceed) 2
        (twoPages.map Except.ok)).events.length = twoPages.length ∧
    (tableTid.Scan sdkCodec (scriptedProvider (Except.ok idSchema) allDeletesSucceed) 2
        (twoPages.map Except.ok)).tasks = [] ∧
    (tableTid.Scan sdkCodec (scriptedProvider (Except.ok idSchema) allDeletesSucceed) 2
        (twoPages.map Except.ok)).outcome
      = Outcome.returned
          (some ((twoPages.map (fun page =>
              page.Items.map (keyOf sdkCodec { PartitionKey := "id", SortKey := none }))).flatten),
            wrapInt32 (sumCounts twoPages), none) ∧
    (isInt32 (sumCounts twoPages) →
      (tableTid.Scan sdkCodec (scriptedProvider (Except.ok idSchema) allDeletesSucceed) 2
          (twoPages.map Except.ok)).outcome
        = Outcome.returned
            (some ((twoPages.map (fun page =>
                page.Items.map (keyOf sdkCodec { PartitionKey := "id", SortKey := none }))).flatten),
              sumCounts twoPages, none)) :=
  ⟨rfl,
   Table.Scan_pages sdkCodec (scriptedProvider (Except.ok idSchema) allDeletesSucceed) tableTid
    { PartitionKey := "id", SortKey := none } twoPages 2 (twoPages.map Except.ok) rfl
    (by simp [ServesPages, twoPages, scriptedProvider]) rfl
    (by
      intro page hpage
      simp only [twoPages, List.mem_cons, List.mem_singleton, List.not_mem_nil, or_false] at hpage
      rcases hpage with h | h <;> subst h <;> simp [isInt32])
    (by decide)⟩


/-! ## Theorems: Table.Purge -/

theorem bulkDeletes_append (l1 l2 : List Event) :
    bulkDeletes (l1 ++ l2) = bulkDeletes l1 ++ bulkDeletes l2 := by
  induction l1 with
  | nil => rfl
  | cons e l1 ih => cases e <;> simp [bulkDeletes, ih]

/-- The loop of `Table.Scan` issues no bulk-delete request. -/
theorem scanLoop_bulkDeletes {σ : Type} (c : Codec) (p : Provider σ) (table : Table) :
    ∀ (fuel : Nat) (s : σ) (events : List Event) (cursor : Option Item) (count : Int)
      (keys : List KeyPair),
      bulkDeletes (scanLoop c p table fuel s events cursor count keys).events
        = bulkDeletes events := by
  intro fuel
  induction fuel with
  | zero => intro s events cursor count keys; rfl
  | succ fuel ih =>
    intro s events cursor count keys
    rw [scanLoop_succ]
    cases cursor with
    | none => rfl
    | some startKey =>
      simp only []
      rcases hscan : p.Scan s { TableName := table.TableName, ExclusiveStartKey := some startKey }
        with ⟨r, s1⟩
      cases r with
      | error err => simp [bulkDeletes_append, bulkDeletes]
      | ok response =>
        simp only []
        cases table.PrimaryKey with
        | none => simp [bulkDeletes_append, bulkDeletes]
        | some primaryKey =>
          simp only []
          rw [ih]
          simp [bulkDeletes_append, bulkDeletes]

/-- The method `Table.Scan` issues no bulk-delete request. -/
theorem Table.Scan_bulkDeletes {σ : Type} (c : Codec) (p : Provider σ) (fuel : Nat) (s : σ)
    (table : Table) : bulkDeletes (table.Scan c p fuel s).events = [] := by
  unfold Table.Scan
  simp only []
  rcases hscan : p.Scan s { TableName := table.TableName, ExclusiveStartKey := none }
    with ⟨r, s1⟩
  cases r with
  | error err => rfl
  | ok response =>
    simp only []
    cases table.PrimaryKey with
    | none => rfl
    | some primaryKey =>
      simp only []
      rw [scanLoop_bulkDeletes]
      rfl

/-- The method `Table.AssignKeySchema` issues exactly the `DescribeTable` call. -/
theorem Table.AssignKeySchema_events {σ : Type} (p : Provider σ) (s : σ) (table : Table) :
    (table.AssignKeySchema p s).events = [Event.describeTable { TableName := table.TableName }] := by
  unfold Table.AssignKeySchema
  simp only []
  rcases hd : p.DescribeTable s { TableName := table.TableName } with ⟨r, s1⟩
  cases r with
  | error err => rfl
  | ok info =>
    simp only []
    cases info.Table with
    | none => rfl
    | some description =>
      simp only []
      cases keySchemaLoop description.KeySchema KeyPair.zero <;> rfl

/-- A successful `Table.AssignKeySchema` leaves a table with a key schema. -/
theorem Table.AssignKeySchema_returned {σ : Type} (p : Provider σ) (s : σ) (table table1 : Table)
    (h : (table.AssignKeySchema p s).outcome = Outcome.returned (table1, none)) :
    ∃ keys, table1 = { table with PrimaryKey := some keys } := by
  unfold Table.AssignKeySchema at h
  simp only [] at h
  rcases hd : p.DescribeTable s { TableName := table.TableName } with ⟨r, s1⟩
  rw [hd] at h
  cases r with
  | error err => simp at h
  | ok info =>
    simp only [] at h
    cases hinfo : info.Table with
    | none => rw [hinfo] at h; simp at h
    | some description =>
      rw [hinfo] at h
      simp only [] at h
      cases hk : keySchemaLoop description.KeySchema KeyPair.zero with
      | none => rw [hk] at h; simp at h
      | some keys =>
        rw [hk] at h
        simp only [Outcome.returned.injEq, Prod.mk.injEq, and_true] at h
        exact ⟨keys, h.symm⟩

/-- When `DescribeTable` fails, so does `Table.AssignKeySchema`, with the
error of the provider. -/
theorem Table.AssignKeySchema_error {σ : Type} (p : Provider σ) (s : σ) (table : Table)
    (err : String)
    (h : (p.DescribeTable s { TableName := table.TableName }).1 = Except.error err) :
    (table.AssignKeySchema p s).outcome = Outcome.returned (table, some err) := by
  unfold Table.AssignKeySchema
  simp only []
  rcases hd : p.DescribeTable s { TableName := table.TableName } with ⟨r, s1⟩
  rw [hd] at h
  simp only at h
  subst h
  rfl

/-- When the first `Scan` request fails, `Table.Scan` returns the error. -/
theorem Table.Scan_first_fails {σ : Type} (c : Codec) (p : Provider σ) (fuel : Nat) (s : σ)
    (table : Table) (err : String)
    (h : (p.Scan s { TableName := table.TableName, ExclusiveStartKey := none }).1
      = Except.error err) :
    (table.Scan c p fuel s).outcome = Outcome.returned (none, 0, some err) := by
  unfold Table.Scan
  simp only []
  rcases hscan : p.Scan s { TableName := table.TableName, ExclusiveStartKey := none }
    with ⟨r, s1⟩
  rw [hscan] at h
  simp only at h
  subst h
  rfl

/-- The calling goroutine of `Table.Purge` issues no bulk-delete request. -/
theorem Table.Purge_events_bulkDeletes {σ : Type} (c : Codec) (p : Provider σ) (fuel : Nat)
    (s : σ) (table : Table) : bulkDeletes (table.Purge c p fuel s).events = [] := by
  have hres : bulkDeletes (table.AssignKeySchema p s).events = [] := by
    rw [Table.AssignKeySchema_events]; rfl
  unfold Table.Purge
  simp only []
  split
  · exact hres
  · exact hres
  · exact hres
  · exact hres
  · rename_i table1 _
    have hscan := Table.Scan_bulkDeletes c p fuel (table.AssignKeySchema p s).state table1
    have hboth : bulkDeletes ((table.AssignKeySchema p s).events
        ++ (table1.Scan c p fuel (table.AssignKeySchema p s).state).events) = [] := by
      rw [bulkDeletes_append, hres, hscan]; rfl
    split
    · exact hboth
    · exact hboth
    · exact hboth
    · exact hboth
    · split
      · exact hboth
      · exact hboth
      · exact hboth
      · split
        · split
          · exact hboth
          · exact hboth
        · exact hboth

/-- What `Table.Purge` does when the key schema cannot be resolved. -/
theorem Table.Purge_of_schema_error {σ : Type} (c : Codec) (p : Provider σ) (fuel : Nat) (s : σ)
    (table : Table) (err : String)
    (h : (table.AssignKeySchema p s).outcome = Outcome.returned (table, some err)) :
    (table.Purge c p fuel s).outcome = Outcome.returned (table, 0, some err) ∧
      (table.Purge c p fuel s).tasks = [] := by
  unfold Table.Purge
  simp [h]

/-- What `Table.Purge` does when the scan returns an error. -/
theorem Table.Purge_of_scan_error {σ : Type} (c : Codec) (p : Provider σ) (fuel : Nat) (s : σ)
    (table table1 : Table) (keys : Option (List KeyPair)) (count : Int) (err : String)
    (h1 : (table.AssignKeySchema p s).outcome = Outcome.returned (table1, none))
    (h2 : (table1.Scan c p fuel (table.AssignKeySchema p s).state).outcome
      = Outcome.returned (keys, count, some err)) :
    (table.Purge c p fuel s).outcome = Outcome.returned (table1, 0, some err) ∧
      (table.Purge c p fuel s).tasks = [] := by
  unfold Table.Purge
  simp [h1, h2]


/-- The scan loop does not consult the answers to bulk-delete requests. -/
theorem scanLoop_answers {σ : Type} (c : Codec) (p : Provider σ) (table : Table)
    (answers : Nat → BatchWriteItemInput → Option String) :
    ∀ (fuel : Nat) (s : σ) (events : List Event) (cursor : Option Item) (count : Int)
      (keys : List KeyPair),
      scanLoop c { p with BatchWriteItem := answers } table fuel s events cursor count keys
        = scanLoop c p table fuel s events cursor count keys := by
  intro fuel
  induction fuel with
  | zero => intro s events cursor count keys; rfl
  | succ fuel ih =>
    intro s events cursor count keys
    rw [scanLoop_succ, scanLoop_succ]
    cases cursor with
    | none => rfl
    | some startKey =>
      simp only []
      rcases hscan : p.Scan s { TableName := table.TableName, ExclusiveStartKey := some startKey }
        with ⟨r, s1⟩
      cases r with
      | error err => rfl
      | ok response =>
        simp only []
        cases table.PrimaryKey with
        | none => rfl
        | some primaryKey => simp only []; rw [ih]

/-- The method `Table.Scan` does not consult the answers to bulk-delete requests. -/
theorem Table.Scan_answers {σ : Type} (c : Codec) (p : Provider σ) (fuel : Nat) (s : σ)
    (table : Table) (answers : Nat → BatchWriteItemInput → Option String) :
    table.Scan c { p with BatchWriteItem := answers } fuel s = table.Scan c p fuel s := by
  unfold Table.Scan
  simp only []
  rcases hscan : p.Scan s { TableName := table.TableName, ExclusiveStartKey := none }
    with ⟨r, s1⟩
  cases r with
  | error err => rfl
  | ok response =>
    simp only []
    cases table.PrimaryKey with
    | none => rfl
    | some primaryKey => simp only []; rw [scanLoop_answers]

/-- The method `Table.AssignKeySchema` does not consult them either. -/
theorem Table.AssignKeySchema_answers {σ : Type} (p : Provider σ) (s : σ) (table : Table)
    (answers : Nat → BatchWriteItemInput → Option String) :
    table.AssignKeySchema { p with BatchWriteItem := answers } s = table.AssignKeySchema p s := rfl

/-- The loop of `deleteChunk` makes one write request per record and prints
to stderr only. -/
theorem writeRequestLoop_spec (c : Codec) (primaryKey : KeyPair) (chunk : List KeyPair) :
    (writeRequestLoop c primaryKey chunk).1
        = chunk.map (fun record =>
            ({ DeleteRequest := some { Key := (record.toDynamoDbApiKey c primaryKey).1 } }
              : WriteRequest)) ∧
      bulkDeletes (writeRequestLoop c primaryKey chunk).2 = [] := by
  unfold writeRequestLoop
  induction chunk using List.reverseRecOn with
  | nil => exact ⟨rfl, rfl⟩
  | append_singleton rest record ih =>
    rw [List.foldl_append]
    simp only [List.foldl_cons, List.foldl_nil, List.map_append, List.map_cons, List.map_nil]
    refine ⟨by rw [ih.1], ?_⟩
    cases (record.toDynamoDbApiKey c primaryKey).2 with
    | none => exact ih.2
    | some err =>
      simp only []
      rw [bulkDeletes_append, ih.2]
      rfl

/-- A `deleteChunk` goroutine issues exactly one bulk-delete request, the one
of `deleteRequestFor`, whatever the provider answers. -/
theorem deleteChunk_bulkDeletes (c : Codec) (answer : BatchWriteItemInput → Option String)
    (tableName : String) (primaryKey : KeyPair) (chunk : List KeyPair) :
    bulkDeletes (deleteChunk c answer tableName primaryKey chunk)
      = [deleteRequestFor c tableName primaryKey chunk] := by
  obtain ⟨h1, h2⟩ := writeRequestLoop_spec c primaryKey chunk
  unfold deleteChunk
  simp only []
  cases answer { RequestItems := mapSet [] tableName (writeRequestLoop c primaryKey chunk).1 } with
  | none =>
    simp only []
    rw [bulkDeletes_append, h2, h1]
    rfl
  | some err =>
    simp only []
    rw [bulkDeletes_append, bulkDeletes_append, h2, h1]
    rfl

theorem spawnDeletes_bulkDeletes {σ : Type} (c : Codec) (p : Provider σ) (tableName : String)
    (primaryKey : KeyPair) (batches : List (List KeyPair)) :
    ∀ k : Nat, (spawnDeletes c p tableName primaryKey k batches).map bulkDeletes
      = batches.map (fun batch => [deleteRequestFor c tableName primaryKey batch]) := by
  induction batches with
  | nil => intro k; rfl
  | cons batch rest ih =>
    intro k
    simp only [spawnDeletes, List.map_cons, deleteChunk_bulkDeletes, ih]

/-- Sixty keys make three batches of 25, 25 and 10. -/
theorem batchesOf_sixty {α : Type} (l : List α) (h : l.length = 60) :
    (batchesOf 25 l).map List.length = [25, 25, 10] := by
  have h1 : l ≠ [] := by intro h0; rw [h0] at h; simp at h
  have h2 : l.drop 25 ≠ [] := by
    intro h0; have := congrArg List.length h0; simp at this; omega
  have h3 : (l.drop 25).drop 25 ≠ [] := by
    intro h0; have := congrArg List.length h0; simp at this; omega
  have h4 : ((l.drop 25).drop 25).drop 25 = [] := by
    apply List.drop_eq_nil_of_le; simp; omega
  rw [batchesOf_of_ne_nil 25 (by decide) l h1, batchesOf_of_ne_nil 25 (by decide) _ h2,
    batchesOf_of_ne_nil 25 (by decide) _ h3, h4, batchesOf_nil]
  simp [List.length_take, List.length_drop, h]

/-- C4: if schema resolution fails, or if a scan request fails, on the first
page or on a later one, `Table.Purge` returns count 0 with that error and
issues no bulk-delete request: the calling goroutine issues none and no
`deleteChunk` goroutine is spawned. In the scan case `Table.Scan` itself
returns a nil key list, count 0 and the error. -/
theorem Table.Purge_fatal {σ : Type} (c : Codec) (p : Provider σ) (fuel : Nat) (s : σ)
    (table : Table) :
    (∀ err : String,
      (p.DescribeTable s { TableName := table.TableName }).1 = Except.error err →
      (table.Purge c p fuel s).outcome = Outcome.returned (table, 0, some err) ∧
      (table.Purge c p fuel s).tasks = [] ∧
      bulkDeletes (table.Purge c p fuel s).events = []) ∧
    (∀ (table1 : Table) (pages : List ScanOutput) (err : String),
      (table.AssignKeySchema p s).outcome = Outcome.returned (table1, none) →
      ServesPages p table1.TableName (table.AssignKeySchema p s).state none pages (some err) →
      cursorsContinue pages = true →
      pages.length ≤ fuel →
      (table1.Scan c p fuel (table.AssignKeySchema p s).state).outcome
        = Outcome.returned (none, 0, some err) ∧
      (table.Purge c p fuel s).outcome = Outcome.returned (table1, 0, some err) ∧
      (table.Purge c p fuel s).tasks = [] ∧
      bulkDeletes (table.Purge c p fuel s).events = []) := by
  constructor
  · intro err herr
    obtain ⟨h1, h2⟩ := Table.Purge_of_schema_error c p fuel s table err
      (Table.AssignKeySchema_error p s table err herr)
    exact ⟨h1, h2, Table.Purge_events_bulkDeletes c p fuel s table⟩
  · intro table1 pages err hschema hserve hcursors hfuel
    obtain ⟨keys, hkeys⟩ := Table.AssignKeySchema_returned p s table table1 hschema
    have hpk : table1.PrimaryKey = some keys := by rw [hkeys]
    have hscan : (table1.Scan c p fuel (table.AssignKeySchema p s).state).outcome
        = Outcome.returned (none, 0, some err) := by
      cases pages with
      | nil =>
        simp only [ServesPages] at hserve
        exact Table.Scan_first_fails c p fuel _ table1 err hserve
      | cons first rest =>
        have hchain := cursorChain_of_cursorsContinue err first rest hcursors
        obtain ⟨_, _, h3⟩ := Table.Scan_served c p table1 keys hpk (some err) first rest fuel
          (table.AssignKeySchema p s).state hserve hchain (by simp at hfuel; omega)
        rw [h3]; rfl
    obtain ⟨h1, h2⟩ := Table.Purge_of_scan_error c p fuel s table table1 none 0 err hschema hscan
    exact ⟨hscan, h1, h2, Table.Purge_events_bulkDeletes c p fuel s table⟩

/-- C4 at two concrete providers: one whose `DescribeTable` fails, and one
that serves a page with a cursor and then fails the second `Scan` request. -/
theorem Table.Purge_fatal_witness :
    ((tableT.Purge sdkCodec (scriptedProvider (Except.error "no such table") allDeletesSucceed) 3
          []).outcome = Outcome.returned (tableT, 0, some "no such table") ∧
      (tableT.Purge sdkCodec (scriptedProvider (Except.error "no such table") allDeletesSucceed) 3
          []).tasks = [] ∧
      bulkDeletes (tableT.Purge sdkCodec
          (scriptedProvider (Except.error "no such table") allDeletesSucceed) 3 []).events = []) ∧
    ((tableTid.Scan sdkCodec (scriptedProvider (Except.ok idSchema) allDeletesSucceed) 3
          (tableT.AssignKeySchema (scriptedProvider (Except.ok idSchema) allDeletesSucceed)
            failingScript).state).outcome = Outcome.returned (none, 0, some "throttled") ∧
      (tableT.Purge sdkCodec (scriptedProvider (Except.ok idSchema) allDeletesSucceed) 3
          failingScript).outcome = Outcome.returned (tableTid, 0, some "throttled") ∧
      (tableT.Purge sdkCodec (scriptedProvider (Except.ok idSchema) allDeletesSucceed) 3
          failingScript).tasks = [] ∧
      bulkDeletes (tableT.Purge sdkCodec (scriptedProvider (Except.ok idSchema) allDeletesSucceed) 3
          failingScript).events = []) :=
  ⟨(Table.Purge_fatal sdkCodec (scriptedProvider (Except.error "no such table") allDeletesSucceed)
      3 [] tableT).1 "no such table" rfl,
   (Table.Purge_fatal sdkCodec (scriptedProvider (Except.ok idSchema) allDeletesSucceed)
      3 failingScript tableT).2 tableTid
      [{ Items := [idRecord "a"], Count := 1, LastEvaluatedKey := some (idRecord "a") }]
      "throttled" rfl ⟨rfl, rfl⟩ rfl (by decide)⟩


theorem requestSize_deleteRequestFor (c : Codec) (tableName : String) (primaryKey : KeyPair)
    (batch : List KeyPair) :
    requestSize (deleteRequestFor c tableName primaryKey batch) = batch.length := by
  simp [requestSize, deleteRequestFor]

/-- C5: when schema resolution and the scan succeed with the keys `keys` and
the count `count`, then whatever the provider answers to the bulk-delete
requests (`answers`), `Table.Purge` spawns one `deleteChunk` goroutine per
batch of `chunkRecords(keys, 25)`, each goroutine issues exactly one
bulk-delete request, the one for its batch, with as many items as the batch
has, at most 25; there are `⌈N / 25⌉` of them, of sizes 25, 25 and 10 when
`N = 60`; and `Table.Purge` returns the count of the scan and no error. -/
theorem Table.Purge_deletes {σ : Type} (c : Codec) (p : Provider σ)
    (answers : Nat → BatchWriteItemInput → Option String) (fuel : Nat) (s : σ)
    (table table1 : Table) (keys : List KeyPair) (count : Int)
    (hschema : (table.AssignKeySchema p s).outcome = Outcome.returned (table1, none))
    (hscan : (table1.Scan c p fuel (table.AssignKeySchema p s).state).outcome
      = Outcome.returned (some keys, count, none))
    (hlen : keys.length < 2 ^ 62) (hfuel : keys.length < fuel) :
    ∃ (primaryKey : KeyPair) (batches : List (List KeyPair)),
      table1.PrimaryKey = some primaryKey ∧
      chunkRecords fuel keys 25 = Outcome.returned batches ∧
      (table.Purge c { p with BatchWriteItem := answers } fuel s).outcome
        = Outcome.returned (table1, count, none) ∧
      (table.Purge c { p with BatchWriteItem := answers } fuel s).tasks.map bulkDeletes
        = batches.map (fun batch => [deleteRequestFor c table1.TableName primaryKey batch]) ∧
      (table.Purge c { p with BatchWriteItem := answers } fuel s).tasks.map
          (fun task => (bulkDeletes task).map requestSize)
        = batches.map (fun batch => [batch.length]) ∧
      bulkDeletes (table.Purge c { p with BatchWriteItem := answers } fuel s).events = [] ∧
      (batches.length : Int) = ⌈(keys.length : ℚ) / 25⌉ ∧
      (∀ batch ∈ batches, 1 ≤ batch.length ∧ batch.length ≤ 25) ∧
      (keys.length = 60 →
        (table.Purge c { p with BatchWriteItem := answers } fuel s).tasks.map
            (fun task => (bulkDeletes task).map requestSize) = [[25], [25], [10]]) := by
  obtain ⟨primaryKey, hkeys⟩ := Table.AssignKeySchema_returned p s table table1 hschema
  have hpk : table1.PrimaryKey = some primaryKey := by rw [hkeys]
  have hchunk : chunkRecords fuel keys 25 = Outcome.returned (batchesOf 25 keys) := by
    have := chunkRecords_eq_batchesOf keys 25 fuel (by decide) (by norm_num) hlen hfuel
    simpa using this
  obtain ⟨hceil, _, _, hsizes⟩ := batchesOf_shape 25 (by decide) keys
  have hs1 : (table.AssignKeySchema { p with BatchWriteItem := answers } s).outcome
      = Outcome.returned (table1, none) := hschema
  have hs2 : (table1.Scan c { p with BatchWriteItem := answers } fuel
      (table.AssignKeySchema { p with BatchWriteItem := answers } s).state).outcome
      = Outcome.returned (some keys, count, none) := by
    rw [Table.AssignKeySchema_answers, Table.Scan_answers]; exact hscan
  have hout : (table.Purge c { p with BatchWriteItem := answers } fuel s).outcome
        = Outcome.returned (table1, count, none) ∧
      (table.Purge c { p with BatchWriteItem := answers } fuel s).tasks
        = spawnDeletes c { p with BatchWriteItem := answers } table1.TableName primaryKey 0
            (batchesOf 25 keys) := by
    unfold Table.Purge
    simp [hs1, hs2, hchunk, hpk]
  have htasks := spawnDeletes_bulkDeletes c { p with BatchWriteItem := answers }
    table1.TableName primaryKey (batchesOf 25 keys) 0
  have hsz : (table.Purge c { p with BatchWriteItem := answers } fuel s).tasks.map
        (fun task => (bulkDeletes task).map requestSize)
      = (batchesOf 25 keys).map (fun batch => [batch.length]) := by
    have h2 : (table.Purge c { p with BatchWriteItem := answers } fuel s).tasks.map
          (fun task => (bulkDeletes task).map requestSize)
        = ((table.Purge c { p with BatchWriteItem := answers } fuel s).tasks.map bulkDeletes).map
            (fun requests => requests.map requestSize) := by
      rw [List.map_map]; rfl
    rw [h2, hout.2, htasks, List.map_map]
    apply List.map_congr_left
    intro batch _
    simp [requestSize_deleteRequestFor]
  refine ⟨primaryKey, batchesOf 25 keys, hpk, hchunk, hout.1, ?_, hsz,
    Table.Purge_events_bulkDeletes c _ fuel s table, ?_, hsizes, ?_⟩
  · rw [hout.2, htasks]
  · have h25 : ((25 : Nat) : ℚ) = 25 := by norm_num
    rw [← h25]; exact hceil
  · intro h60
    have h3 := batchesOf_sixty keys h60
    rw [hsz]
    have h4 : (batchesOf 25 keys).map (fun batch => [batch.length])
        = ((batchesOf 25 keys).map List.length).map (fun n => [n]) := by
      rw [List.map_map]; rfl
    rw [h4, h3]
    rfl

/-- C5 at a concrete provider: one page of sixty records, key schema `id`,
and a provider that fails the third bulk-delete request. -/
theorem Table.Purge_deletes_witness :
    ∃ (primaryKey : KeyPair) (batches : List (List KeyPair)),
      tableTid.PrimaryKey = some primaryKey ∧
      chunkRecords 61 sixtyKeys 25 = Outcome.returned batches ∧
      (tableT.Purge sdkCodec
        { scriptedProvider (Except.ok idSchema) allDeletesSucceed with
          BatchWriteItem := thirdDeleteFails } 61 [Except.ok sixtyPage]).outcome
        = Outcome.returned (tableTid, 60, none) ∧
      (tableT.Purge sdkCodec
        { scriptedProvider (Except.ok idSchema) allDeletesSucceed with
          BatchWriteItem := thirdDeleteFails } 61 [Except.ok sixtyPage]).tasks.map bulkDeletes
        = batches.map (fun batch => [deleteRequestFor sdkCodec tableTid.TableName primaryKey batch]) ∧
      (tableT.Purge sdkCodec
        { scriptedProvider (Except.ok idSchema) allDeletesSucceed with
          BatchWriteItem := thirdDeleteFails } 61 [Except.ok sixtyPage]).tasks.map
          (fun task => (bulkDeletes task).map requestSize)
        = batches.map (fun batch => [batch.length]) ∧
      bulkDeletes (tableT.Purge sdkCodec
        { scriptedProvider (Except.ok idSchema) allDeletesSucceed with
          BatchWriteItem := thirdDeleteFails } 61 [Except.ok sixtyPage]).events = [] ∧
      (batches.length : Int) = ⌈(sixtyKeys.length : ℚ) / 25⌉ ∧
      (∀ batch ∈ batches, 1 ≤ batch.length ∧ batch.length ≤ 25) ∧
      (sixtyKeys.length = 60 →
        (tableT.Purge sdkCodec
          { scriptedProvider (Except.ok idSchema) allDeletesSucceed with
            BatchWriteItem := thirdDeleteFails } 61 [Except.ok sixtyPage]).tasks.map
            (fun task => (bulkDeletes task).map requestSize) = [[25], [25], [10]]) :=
  Table.Purge_deletes sdkCodec (scriptedProvider (Except.ok idSchema) allDeletesSucceed)
    thirdDeleteFails 61 [Except.ok sixtyPage] tableT tableTid sixtyKeys 60 rfl rfl
    (by decide) (by decide)


/-! ## Theorems: purge.go -/

theorem mapGet_mapSet {α : Type} (m : GoMap α) (k : String) (v : α) (k1 : String) :
    mapGet (mapSet m k v) k1 = if k = k1 then some v else mapGet m k1 := by
  induction m with
  | nil => simp [mapSet, mapGet]
  | cons entry rest ih =>
    obtain ⟨k0, v0⟩ := entry
    by_cases h0 : k0 = k
    · subst h0
      by_cases h1 : k0 = k1 <;> simp [mapSet, mapGet, h1]
    · by_cases h1 : k = k1
      · subst h1
        simp [mapSet, mapGet, h0, ih]
      · by_cases h2 : k0 = k1
        · subst h2; simp [mapSet, mapGet, h0, h1]
        · simp [mapSet, mapGet, h0, h1, h2, ih]

/-- A failed `Table.Purge` returns count 0. -/
theorem Table.Purge_error_count {σ : Type} (c : Codec) (p : Provider σ) (fuel : Nat) (s : σ)
    (table table1 : Table) (count : Int) (err : String)
    (h : (table.Purge c p fuel s).outcome = Outcome.returned (table1, count, some err)) :
    count = 0 := by
  unfold Table.Purge at h
  simp only [] at h
  split at h
  · simp at h
  · simp at h
  · simp at h
  · simp only [Outcome.returned.injEq, Prod.mk.injEq] at h
    exact h.2.1.symm
  · split at h
    · simp at h
    · simp at h
    · simp at h
    · simp only [Outcome.returned.injEq, Prod.mk.injEq] at h
      exact h.2.1.symm
    · split at h
      · simp at h
      · simp at h
      · simp at h
      · split at h
        · split at h
          · simp at h
          · simp at h
        · simp at h

/-- The first event of `Table.Purge` is the `DescribeTable` call. -/
theorem Table.Purge_events_head {σ : Type} (c : Codec) (p : Provider σ) (fuel : Nat) (s : σ)
    (table : Table) :
    (table.Purge c p fuel s).events ≠ [] ∧
    (table.Purge c p fuel s).events.head?
      = some (Event.describeTable { TableName := table.TableName }) := by
  have hres := Table.AssignKeySchema_events p s table
  have key : ∀ rest : List Event,
      ((table.AssignKeySchema p s).events ++ rest) ≠ [] ∧
      ((table.AssignKeySchema p s).events ++ rest).head?
        = some (Event.describeTable { TableName := table.TableName }) := by
    intro rest; rw [hres]; simp
  have key0 := key []
  rw [List.append_nil] at key0
  unfold Table.Purge
  simp only []
  split
  · exact key0
  · exact key0
  · exact key0
  · exact key0
  · split
    · exact key _
    · exact key _
    · exact key _
    · exact key _
    · split
      · exact key _
      · exact key _
      · exact key _
      · split
        · split
          · exact key _
          · exact key _
        · exact key _

/-- C6: `getTableName` returns the error `Missing parameter "table-name"`
exactly when the flag map holds no `*string` under `table-name` or holds a
pointer to the empty string, and it returns no other error; `purge.Purge`
then returns that error without any event, so before any provider call. A
pointer to a non-empty string is returned unchanged with no error, and then
`purge.Purge` starts with `DescribeTable` on that very name. (A nil `*string`
is neither case: its dereference panics.) -/
theorem purge.getTableName_spec (flagVals : GoMap Dynamic) :
    purge.errMissingTableName = "Missing parameter \"table-name\"" ∧
    (purge.getTableName flagVals = Outcome.returned ("", some "Missing parameter \"table-name\"") ↔
      ((∀ target, mapGet flagVals "table-name" ≠ some (Dynamic.ptrString target)) ∨
        mapGet flagVals "table-name" = some (Dynamic.ptrString (some "")))) ∧
    (∀ (name err : String), purge.getTableName flagVals = Outcome.returned (name, some err) →
      name = "" ∧ err = "Missing parameter \"table-name\"") ∧
    (∀ name : String, name ≠ "" →
      mapGet flagVals "table-name" = some (Dynamic.ptrString (some name)) →
      purge.getTableName flagVals = Outcome.returned (name, none)) ∧
    (∀ (σ : Type) (c : Codec) (p : Provider σ) (fuel : Nat) (s : σ),
      (purge.getTableName flagVals = Outcome.returned ("", some "Missing parameter \"table-name\"") →
        (purge.Purge c p fuel s flagVals).events = [] ∧
        (purge.Purge c p fuel s flagVals).tasks = [] ∧
        (purge.Purge c p fuel s flagVals).outcome
          = Outcome.returned (some "Missing parameter \"table-name\"")) ∧
      (∀ name : String, purge.getTableName flagVals = Outcome.returned (name, none) →
        (purge.Purge c p fuel s flagVals).events.head?
          = some (Event.describeTable { TableName := name }))) := by
  refine ⟨rfl, ?_, ?_, ?_, ?_⟩
  · unfold purge.getTableName
    cases hget : mapGet flagVals "table-name" with
    | none => simp [purge.errMissingTableName]
    | some value =>
      cases value with
      | ptrString target =>
        cases target with
        | none => simp
        | some val =>
          by_cases hval : val = ""
          · subst hval; simp [purge.errMissingTableName]
          · simp [hval]
      | ptrInt target => simp [purge.errMissingTableName]
      | ptrBool target => simp [purge.errMissingTableName]
      | int v => simp [purge.errMissingTableName]
      | string v => simp [purge.errMissingTableName]
      | bool v => simp [purge.errMissingTableName]
  · intro name err
    unfold purge.getTableName
    cases hget : mapGet flagVals "table-name" with
    | none => simp [purge.errMissingTableName]; intro h1 h2; exact ⟨h1.symm, h2.symm⟩
    | some value =>
      cases value with
      | ptrString target =>
        cases target with
        | none => simp
        | some val =>
          by_cases hval : val = ""
          · subst hval; simp [purge.errMissingTableName]; intro h1 h2; exact ⟨h1.symm, h2.symm⟩
          · simp [hval]
      | ptrInt target => simp [purge.errMissingTableName]; intro h1 h2; exact ⟨h1.symm, h2.symm⟩
      | ptrBool target => simp [purge.errMissingTableName]; intro h1 h2; exact ⟨h1.symm, h2.symm⟩
      | int v => simp [purge.errMissingTableName]; intro h1 h2; exact ⟨h1.symm, h2.symm⟩
      | string v => simp [purge.errMissingTableName]; intro h1 h2; exact ⟨h1.symm, h2.symm⟩
      | bool v => simp [purge.errMissingTableName]; intro h1 h2; exact ⟨h1.symm, h2.symm⟩
  · intro name hname hget
    unfold purge.getTableName
    simp [hget, hname]
  · intro σ c p fuel s
    constructor
    · intro h
      unfold purge.Purge
      simp [h]
    · intro name h
      unfold purge.Purge
      simp only [h]
      have hev := Table.Purge_events_head c p fuel s { TableName := name, PrimaryKey := none }
      revert hev
      cases (Table.Purge c p fuel s { TableName := name, PrimaryKey := none }).outcome with
      | returned result => intro hev; simp only []; rw [List.head?_append_of_ne_nil]; exact hev.2; exact hev.1
      | panicked msg => intro hev; exact hev.2
      | exited code => intro hev; exact hev.2
      | outOfFuel => intro hev; exact hev.2


/-- C7, as stated, fails: the table name is given and `DescribeTable` fails,
so `Table.Purge` fails with count 0; `purge.Purge` returns the error, and
before that it writes the count line `Deleted 0 items` to stdout. -/
theorem purge.Purge_reports_after_failure :
    (tableT.Purge sdkCodec (scriptedProvider (Except.error "no such table") allDeletesSucceed) 3
        []).outcome = Outcome.returned (tableT, 0, some "no such table") ∧
    (purge.Purge sdkCodec (scriptedProvider (Except.error "no such table") allDeletesSucceed) 3 []
        flagsT).outcome = Outcome.returned (some "no such table") ∧
    (purge.Purge sdkCodec (scriptedProvider (Except.error "no such table") allDeletesSucceed) 3 []
        flagsT).events
      = [Event.describeTable { TableName := "t" }, Event.stdout "Deleted 0 items\n"] := by
  refine ⟨rfl, rfl, ?_⟩
  decide

/-- C7, amended: when the table name is given and `Table.Purge` returns,
`purge.Purge` returns the error of `Table.Purge` (or none) to its caller
after writing the count line as its last event, on failure as on success;
when `Table.Purge` failed the count is 0 and the line reads
`Deleted 0 items`. -/
theorem purge.Purge_count_line {σ : Type} (c : Codec) (p : Provider σ) (fuel : Nat) (s : σ)
    (flagVals : GoMap Dynamic) (name : String) (table1 : Table) (count : Int)
    (err : Option String)
    (hname : purge.getTableName flagVals = Outcome.returned (name, none))
    (hpurge : (Table.Purge c p fuel s { TableName := name, PrimaryKey := none }).outcome
      = Outcome.returned (table1, count, err)) :
    (purge.Purge c p fuel s flagVals).outcome = Outcome.returned err ∧
    (purge.Purge c p fuel s flagVals).events
      = (Table.Purge c p fuel s { TableName := name, PrimaryKey := none }).events
          ++ [Event.stdout ("Deleted " ++ toString count ++ " items\n")] ∧
    (err ≠ none →
      count = 0 ∧
      (purge.Purge c p fuel s flagVals).events
        = (Table.Purge c p fuel s { TableName := name, PrimaryKey := none }).events
            ++ [Event.stdout "Deleted 0 items\n"]) := by
  have hev : (purge.Purge c p fuel s flagVals).outcome = Outcome.returned err ∧
      (purge.Purge c p fuel s flagVals).events
        = (Table.Purge c p fuel s { TableName := name, PrimaryKey := none }).events
            ++ [Event.stdout ("Deleted " ++ toString count ++ " items\n")] := by
    unfold purge.Purge
    simp only [hname, hpurge]
    simp [purge.countLine]
  refine ⟨hev.1, hev.2, ?_⟩
  intro herr
  obtain ⟨e, rfl⟩ := Option.ne_none_iff_exists'.mp herr
  have h0 := Table.Purge_error_count c p fuel s _ table1 count e hpurge
  subst h0
  exact ⟨rfl, hev.2⟩

/-- The amended C7 at the provider whose `DescribeTable` fails. -/
theorem purge.Purge_count_line_witness :
    (purge.Purge sdkCodec (scriptedProvider (Except.error "no such table") allDeletesSucceed) 3 []
        flagsT).outcome = Outcome.returned (some "no such table") ∧
    (purge.Purge sdkCodec (scriptedProvider (Except.error "no such table") allDeletesSucceed) 3 []
        flagsT).events
      = (Table.Purge sdkCodec (scriptedProvider (Except.error "no such table") allDeletesSucceed)
            3 [] { TableName := "t", PrimaryKey := none }).events
          ++ [Event.stdout ("Deleted " ++ toString (0 : Int) ++ " items\n")] ∧
    (some "no such table" ≠ none →
      (0 : Int) = 0 ∧
      (purge.Purge sdkCodec (scriptedProvider (Except.error "no such table") allDeletesSucceed) 3 []
          flagsT).events
        = (Table.Purge sdkCodec (scriptedProvider (Except.error "no such table") allDeletesSucceed)
              3 [] { TableName := "t", PrimaryKey := none }).events
            ++ [Event.stdout "Deleted 0 items\n"]) :=
  purge.Purge_count_line sdkCodec (scriptedProvider (Except.error "no such table") allDeletesSucceed)
    3 [] flagsT "t" tableT 0 (some "no such table") rfl rfl

/-! ## Theorems: keys -/

/-- C8, as stated, fails for number and binary keys. A record with the number
key `id = N 42` is extracted as the string `42` and marshalled as `S 42`,
and a record with the binary key `id = B [1, 2]` is extracted as the empty
string and marshalled as `S ""`: the key map sent to the provider differs
from the key of the record. -/
theorem key_roundtrip_number_binary :
    appendChunkToKeyArray sdkCodec idKey [] [[("id", AttributeValue.N "42")]]
      = [{ PartitionKey := "42", SortKey := none }] ∧
    KeyPair.toDynamoDbApiKey sdkCodec { PartitionKey := "42", SortKey := none } idKey
      = (some [("id", AttributeValue.S "42")], none) ∧
    mapGet [("id", AttributeValue.S "42")] "id" ≠ mapGet [("id", AttributeValue.N "42")] "id" ∧
    appendChunkToKeyArray sdkCodec idKey [] [[("id", AttributeValue.B [1, 2])]]
      = [{ PartitionKey := "", SortKey := none }] ∧
    KeyPair.toDynamoDbApiKey sdkCodec { PartitionKey := "", SortKey := none } idKey
      = (some [("id", AttributeValue.S "")], none) ∧
    mapGet [("id", AttributeValue.S "")] "id" ≠ mapGet [("id", AttributeValue.B [1, 2])] "id" := by
  decide

/-- C8, amended: for a record whose key attributes are strings (the
partition key and, when the schema has one, the sort key), the key map that
`toDynamoDbApiKey` builds from the `KeyPair` that `appendChunkToKeyArray`
extracts holds exactly the key attributes of the record, with their names,
type and values, and nothing else. -/
theorem key_roundtrip_strings (primaryKey : KeyPair) (record : Item) (v : String)
    (hpart : mapGet record primaryKey.PartitionKey = some (AttributeValue.S v))
    (hsort : ∀ sortName, primaryKey.SortKey = some sortName →
      ∃ w, mapGet record sortName = some (AttributeValue.S w)) :
    ∃ (keyPair : KeyPair) (apiKey : Item),
      appendChunkToKeyArray sdkCodec primaryKey [] [record] = [keyPair] ∧
      keyPair.toDynamoDbApiKey sdkCodec primaryKey = (some apiKey, none) ∧
      ∀ name, mapGet apiKey name
        = if name = primaryKey.PartitionKey ∨ primaryKey.SortKey = some name
          then mapGet record name else none := by
  obtain ⟨partName, sortKey⟩ := primaryKey
  cases sortKey with
  | none =>
    refine ⟨{ PartitionKey := v, SortKey := none }, [(partName, AttributeValue.S v)], ?_, ?_, ?_⟩
    · simp only [] at hpart
      simp [appendChunkToKeyArray, hpart, sdkCodec, KeyPair.zero]
    · simp [KeyPair.toDynamoDbApiKey, sdkCodec, mapSet]
    · intro name
      by_cases h : name = partName
      · subst h; simpa [mapGet] using hpart.symm
      · have h2 : ¬ partName = name := fun h3 => h h3.symm
        simp [mapGet, h, h2]
  | some sortName =>
    obtain ⟨w, hw⟩ := hsort sortName rfl
    refine ⟨{ PartitionKey := v, SortKey := some w },
      mapSet [(partName, AttributeValue.S v)] sortName (AttributeValue.S w), ?_, ?_, ?_⟩
    · simp only [] at hpart
      simp [appendChunkToKeyArray, hpart, hw, sdkCodec, KeyPair.zero]
    · simp [KeyPair.toDynamoDbApiKey, sdkCodec, mapSet]
    · intro name
      rw [mapGet_mapSet]
      by_cases h1 : sortName = name
      · subst h1; simp [hw]
      · have h1b : ¬ name = sortName := fun h => h1 h.symm
        by_cases h2 : name = partName
        · subst h2; simpa [mapGet, h1, h1b] using hpart.symm
        · have h2b : ¬ partName = name := fun h => h2 h.symm
          simp [mapGet, h1, h1b, h2, h2b]

/-- The amended C8 at a record with the keys `tenant` and `ts`. -/
theorem key_roundtrip_strings_witness :
    ∃ (keyPair : KeyPair) (apiKey : Item),
      appendChunkToKeyArray sdkCodec tenantKey [] [tenantRecord] = [keyPair] ∧
      keyPair.toDynamoDbApiKey sdkCodec tenantKey = (some apiKey, none) ∧
      ∀ name, mapGet apiKey name
        = if name = tenantKey.PartitionKey ∨ tenantKey.SortKey = some name
          then mapGet tenantRecord name else none :=
  key_roundtrip_strings tenantKey tenantRecord "acme" rfl
    (by
      intro sortName h
      have h2 : sortName = "ts" := by
        simp only [tenantKey, Option.some.injEq] at h; exact h.symm
      subst h2
      exact ⟨"2024", rfl⟩)

/-! ## Theorems: deleteChunk -/

/-- With a marshaller that does not fail, `toDynamoDbApiKey` returns a key
map and no error. -/
theorem KeyPair.toDynamoDbApiKey_ok (c : Codec)
    (hstring : ∀ v, ∃ av, c.MarshalString v = Except.ok av)
    (hptr : ∀ v, ∃ av, c.MarshalStringPtr v = Except.ok av)
    (record primaryKey : KeyPair) :
    ∃ key, record.toDynamoDbApiKey c primaryKey = (some key, none) := by
  obtain ⟨av, hav⟩ := hstring record.PartitionKey
  obtain ⟨aw, haw⟩ := hptr record.SortKey
  unfold KeyPair.toDynamoDbApiKey
  rw [hav]
  cases primaryKey.SortKey with
  | none => exact ⟨_, rfl⟩
  | some sortName =>
    simp only []
    rw [haw]
    exact ⟨_, rfl⟩

/-- C9: `attributevalue.Marshal` does not fail on a Go `string` or `*string`
(the hypotheses, which `sdkCodec` meets), so in `deleteChunk` the key of
every record marshals, and the one bulk-delete request that the goroutine
issues for its batch, whatever the provider answers, contains exactly one
delete entry for each record whose `toDynamoDbApiKey` succeeded, in batch
order, each with a key map, and no entry with a nil key. -/
theorem deleteChunk_entries (c : Codec) (answer : BatchWriteItemInput → Option String)
    (tableName : String) (primaryKey : KeyPair) (chunk : List KeyPair)
    (hstring : ∀ v, ∃ av, c.MarshalString v = Except.ok av)
    (hptr : ∀ v, ∃ av, c.MarshalStringPtr v = Except.ok av) :
    (∀ record ∈ chunk, ∃ key, record.toDynamoDbApiKey c primaryKey = (some key, none)) ∧
    bulkDeletes (deleteChunk c answer tableName primaryKey chunk)
      = [{ RequestItems := [(tableName, chunk.filterMap (marshalledEntry c primaryKey))] }] ∧
    (∀ entry ∈ chunk.filterMap (marshalledEntry c primaryKey),
      ∃ key, entry = { DeleteRequest := some { Key := some key } }) ∧
    (chunk.filterMap (marshalledEntry c primaryKey)).length = chunk.length := by
  have hok := KeyPair.toDynamoDbApiKey_ok c hstring hptr
  have hentry : ∀ record : KeyPair, marshalledEntry c primaryKey record
      = some { DeleteRequest := some { Key := (record.toDynamoDbApiKey c primaryKey).1 } } := by
    intro record
    obtain ⟨key, hkey⟩ := hok record primaryKey
    unfold marshalledEntry
    rw [hkey]
  have hmap : chunk.filterMap (marshalledEntry c primaryKey)
      = chunk.map (fun record =>
          ({ DeleteRequest := some { Key := (record.toDynamoDbApiKey c primaryKey).1 } }
            : WriteRequest)) := by
    induction chunk with
    | nil => rfl
    | cons record rest ih => simp [List.filterMap_cons, hentry, ih]
  refine ⟨fun record _ => hok record primaryKey, ?_, ?_, ?_⟩
  · rw [deleteChunk_bulkDeletes, hmap]; rfl
  · intro entry hmem
    rw [hmap] at hmem
    obtain ⟨record, _, hrec⟩ := List.mem_map.mp hmem
    obtain ⟨key, hkey⟩ := hok record primaryKey
    exact ⟨key, by rw [← hrec, hkey]⟩
  · rw [hmap, List.length_map]

/-- C9 at the marshaller of the SDK and a batch of three keys, with a provider
that fails the request. -/
theorem deleteChunk_entries_witness :
    (∀ record ∈ threeKeys, ∃ key, record.toDynamoDbApiKey sdkCodec tenantKey = (some key, none)) ∧
    bulkDeletes (deleteChunk sdkCodec (fun _ => some "throttled") "t" tenantKey threeKeys)
      = [{ RequestItems := [("t", threeKeys.filterMap (marshalledEntry sdkCodec tenantKey))] }] ∧
    (∀ entry ∈ threeKeys.filterMap (marshalledEntry sdkCodec tenantKey),
      ∃ key, entry = { DeleteRequest := some { Key := some key } }) ∧
    (threeKeys.filterMap (marshalledEntry sdkCodec tenantKey)).length = threeKeys.length :=
  deleteChunk_entries sdkCodec (fun _ => some "throttled") "t" tenantKey threeKeys
    (fun v => ⟨AttributeValue.S v, rfl⟩)
    (fun v => by cases v with
      | none => exact ⟨AttributeValue.NULL true, rfl⟩
      | some w => exact ⟨AttributeValue.S w, rfl⟩)

/-! ## Theorems: args.go and core.go -/

theorem mapKeys_mapSet {α : Type} (m : GoMap α) (k : String) (v x : α)
    (h : mapGet m k = some x) : mapKeys (mapSet m k v) = mapKeys m := by
  induction m with
  | nil => simp [mapGet] at h
  | cons entry rest ih =>
    obtain ⟨k0, v0⟩ := entry
    by_cases h0 : k0 = k
    · subst h0; simp [mapSet, mapKeys]
    · simp only [mapGet, h0, if_false] at h
      have := ih h
      simp only [mapKeys] at this
      simp [mapSet, mapKeys, h0, this]

/-- A store through a flag pointer changes neither the keys of the flag map
nor the absence of a key. -/
theorem storeParsed_keys (m : GoMap Dynamic) (name : String) (value : Parsed) (k : String)
    (hk : mapGet m k = none) :
    mapKeys (storeParsed m name value) = mapKeys m ∧ mapGet (storeParsed m name value) k = none := by
  have hne : ∀ x, mapGet m name = some x → ¬ name = k := by
    intro x hx h; subst h; rw [hk] at hx; cases hx
  unfold storeParsed
  split
  · rename_i h
    exact ⟨mapKeys_mapSet m name _ _ h, by rw [mapGet_mapSet, if_neg (hne _ h)]; exact hk⟩
  · rename_i h
    exact ⟨mapKeys_mapSet m name _ _ h, by rw [mapGet_mapSet, if_neg (hne _ h)]; exact hk⟩
  · rename_i h
    exact ⟨mapKeys_mapSet m name _ _ h, by rw [mapGet_mapSet, if_neg (hne _ h)]; exact hk⟩
  · exact ⟨rfl, hk⟩

theorem storeAll_keys (stores : List (String × Parsed)) (k : String) :
    ∀ m : GoMap Dynamic, mapGet m k = none →
      mapKeys (storeAll m stores) = mapKeys m ∧ mapGet (storeAll m stores) k = none := by
  induction stores with
  | nil => intro m hk; exact ⟨rfl, hk⟩
  | cons store rest ih =>
    intro m hk
    obtain ⟨h1, h2⟩ := storeParsed_keys m store.1 store.2 k hk
    obtain ⟨h3, h4⟩ := ih (storeParsed m store.1 store.2) h2
    simp only [storeAll, List.foldl_cons] at h3 h4 ⊢
    exact ⟨h3.trans h1, h4⟩

/-- Without a `table-name` entry `purge.Purge` returns the error at once. -/
theorem purge.Purge_missing {σ : Type} (c : Codec) (p : Provider σ) (fuel : Nat) (s : σ)
    (flagVals : GoMap Dynamic) (h : mapGet flagVals "table-name" = none) :
    purge.Purge c p fuel s flagVals
      = ⟨[], [], s, Outcome.returned (some "Missing parameter \"table-name\"")⟩ := by
  unfold purge.Purge purge.getTableName
  simp [h, purge.errMissingTableName]

/-- C10: `init` succeeds and leaves one subcommand, `purge`, whose flag map
has exactly the keys of its declared flags, that is `help`, and so no
`table-name`; whatever `Parse` stores through the flag pointers, the keys
stay the same and the entry function, `purge.Purge`, returns the error
`Missing parameter "table-name"` without any event. Hence, for every parser
and every command line, `Run` makes no provider call, spawns no goroutine and
never returns normally: it panics or the process exits, and when `Parse`
returns for the subcommand `purge`, `Run` panics with that error. -/
theorem Run_never_reaches_engine {σ : Type} (c : Codec) (p : Provider σ) (fuel : Nat) :
    ∃ g : Globals σ, init c p fuel = Outcome.returned g ∧
      g.subcommands.map
          (fun sub => (sub.name, sub.flags.map (fun flag => flag.long), mapKeys sub.flagValues))
        = [("purge", ["help"], ["help"])] ∧
      (∀ sub ∈ g.subcommands, ∀ (stores : List (String × Parsed)) (s : σ),
        mapKeys (storeAll sub.flagValues stores) = ["help"] ∧
        mapGet (storeAll sub.flagValues stores) "table-name" = none ∧
        sub.entryFunc s (storeAll sub.flagValues stores)
          = purge.Purge c p fuel s (storeAll sub.flagValues stores) ∧
        purge.Purge c p fuel s (storeAll sub.flagValues stores)
          = ⟨[], [], s, Outcome.returned (some "Missing parameter \"table-name\"")⟩) ∧
      (∀ (parse : FlagParse) (s : σ) (osArgs : List String),
        (Run parse g s osArgs).tasks = [] ∧
        providerCalls (Run parse g s osArgs).events = [] ∧
        (∀ u, (Run parse g s osArgs).outcome ≠ Outcome.returned u) ∧
        (∀ (program : String) (arguments : List String) (stores : List (String × Parsed)),
          osArgs = program :: "purge" :: arguments →
          parse { name := "purge", formal := ["help"] } arguments = Outcome.returned stores →
          (Run parse g s osArgs).outcome
            = Outcome.panicked "Missing parameter \"table-name\"")) := by
  have hstores : ∀ (stores : List (String × Parsed)),
      mapKeys (storeAll [("help", Dynamic.ptrString (some ""))] stores) = ["help"] ∧
      mapGet (storeAll [("help", Dynamic.ptrString (some ""))] stores) "table-name" = none := by
    intro stores
    exact storeAll_keys stores "table-name" [("help", Dynamic.ptrString (some ""))] (by decide)
  refine ⟨registered c p fuel, rfl, rfl, ?_, ?_⟩
  · intro sub hsub stores s
    simp only [registered, List.mem_singleton] at hsub
    subst hsub
    exact ⟨(hstores stores).1, (hstores stores).2, rfl,
      purge.Purge_missing c p fuel s _ (hstores stores).2⟩
  · intro parse s osArgs
    match osArgs with
    | [] => simp [Run, providerCalls]
    | [program] => simp [Run, providerCalls]
    | program :: name :: arguments =>
      by_cases hname : "purge" = name
      · subst hname
        cases hparse : parse { name := "purge", formal := ["help"] } arguments with
        | returned stores =>
          have hp := purge.Purge_missing c p fuel s _ (hstores stores).2
          simp [Run, parseSubcommand, registered, mapGet, hparse, hp, providerCalls]
        | panicked msg =>
          simp [Run, parseSubcommand, registered, mapGet, hparse, providerCalls]
          intro _ _ stores _ h2 h3
          subst h2
          rw [hparse] at h3
          cases h3
        | exited code =>
          simp [Run, parseSubcommand, registered, mapGet, hparse, providerCalls]
          intro _ _ stores _ h2 h3
          subst h2
          rw [hparse] at h3
          cases h3
        | outOfFuel =>
          simp [Run, parseSubcommand, registered, mapGet, hparse, providerCalls]
          intro _ _ stores _ h2 h3
          subst h2
          rw [hparse] at h3
          cases h3
      · have hname2 : ¬ name = "purge" := fun h => hname h.symm
        simp [Run, parseSubcommand, registered, mapGet, hname, hname2, errorWithUsage, providerCalls]


end DynamoDbTools
